import Mathlib

/-!
Verification of the silica-chunks boundary-tag chunk manager (src/src/lib.rs).

Embedding conventions:
* The target platform is 64-bit: `size_of::<usize>() = 8`, so `Chunk::alignment() = 8`
  and `Chunk::hdr_csize() = 1`.
* Memory is modelled at the granularity the code manipulates it: a total map from
  word addresses (in alignment units) to word values (`Mem := Nat → Nat`).
  A chunk whose header starts at word address `a` stores its two little-endian
  `u16` fields in the low 32 bits of word `a`: `prev_size` in bits 0..15 and
  `size` in bits 16..31 (bytes 4..7 of the word are padding).
* References `&mut Chunk` become word addresses; `Heap::first_chunk` is address 0.
* `panic!` and Rust's debug-mode arithmetic overflow checks are modelled as
  `Except.error` with the panic message.
* `core::ptr::copy::<usize>(src, dst, count)` copies `count` usize words with
  memmove semantics; `memCopy` reproduces exactly that.
-/

/-- Minimum payload of a chunk excluding the header, in alignment units (source constant). -/
def MIN_PAYLOAD_LEN : Nat := 1

/-- Maximum chunk size including header and payload, in alignment units (source constant). -/
def MAX_CHUNK_SIZE : Nat := 0x7FFF

/-- Chunk::alignment(): size_of::<usize>() on the 64-bit target. -/
def Chunk.alignment : Nat := 8

/-- Chunk::to_padded_csize. -/
def Chunk.to_padded_csize (size : Nat) : Nat :=
  (size + Chunk.alignment - 1) / Chunk.alignment

/-- Chunk::hdr_csize(): size_of::<Chunk>() = 4 bytes, padded to alignment units. -/
def Chunk.hdr_csize : Nat := Chunk.to_padded_csize 4

/-- Chunk::to_csize. -/
def Chunk.to_csize (size : Nat) : Nat :=
  Chunk.hdr_csize + Chunk.to_padded_csize size

/-- Chunk::min_size(). -/
def Chunk.min_size : Nat := Chunk.hdr_csize + MIN_PAYLOAD_LEN

/-- Chunk::max_size(). -/
def Chunk.max_size : Nat := MAX_CHUNK_SIZE

/-- The `prev_size` u16 field of a header word (bits 0..15). -/
def Chunk.prevField (w : Nat) : Nat := w % 65536

/-- The `size` u16 field of a header word (bits 16..31). -/
def Chunk.sizeField (w : Nat) : Nat := w / 65536 % 65536

/-- Store a u16 value into the `prev_size` field of a word, leaving the rest intact. -/
def Chunk.withPrevField (w v : Nat) : Nat := w / 65536 * 65536 + v % 65536

/-- Store a u16 value into the `size` field of a word, leaving the rest intact. -/
def Chunk.withSizeField (w v : Nat) : Nat :=
  w / 4294967296 * 4294967296 + v % 65536 * 65536 + w % 65536

/-- Chunk::size(): `(self.size & !FLAG_ALLOCATED) as usize`. -/
def Chunk.size (w : Nat) : Nat := Chunk.sizeField w % 32768

/-- Chunk::prev_size(): `(self.prev_size & !FLAG_LAST) as usize`. -/
def Chunk.prev_size (w : Nat) : Nat := Chunk.prevField w % 32768

/-- Chunk::is_allocated(): `(self.size & FLAG_ALLOCATED) == FLAG_ALLOCATED`. -/
def Chunk.is_allocated (w : Nat) : Bool := decide (32768 ≤ Chunk.sizeField w)

/-- Chunk::is_last(): `(self.prev_size & FLAG_LAST) == FLAG_LAST`. -/
def Chunk.is_last (w : Nat) : Bool := decide (32768 ≤ Chunk.prevField w)

/-- Chunk::set_size: panics outside `min_size()..=max_size()`, otherwise writes the low
15 bits of `size` and preserves the ALLOCATED flag. -/
def Chunk.set_size (w size : Nat) : Except String Nat :=
  if size < Chunk.min_size ∨ Chunk.max_size < size then
    Except.error "size must be in Chunk::min_size()...Chunk::max_size()"
  else
    Except.ok (Chunk.withSizeField w
      (size % 65536 % 32768 + Chunk.sizeField w / 32768 * 32768))

/-- Chunk::set_prev_size: accepts 0 or `min_size()..=max_size()`, panics otherwise;
writes the low 15 bits of `prev_size` and preserves the LAST flag. -/
def Chunk.set_prev_size (w prev : Nat) : Except String Nat :=
  if prev ≠ 0 ∧ (prev < Chunk.min_size ∨ Chunk.max_size < prev) then
    Except.error "prev_size must be in Chunk::min_size()...Chunk::max_size()"
  else
    Except.ok (Chunk.withPrevField w
      (prev % 65536 % 32768 + Chunk.prevField w / 32768 * 32768))

/-- Chunk::set_is_allocated. -/
def Chunk.set_is_allocated (w : Nat) (allocated : Bool) : Nat :=
  if allocated then Chunk.withSizeField w (Chunk.sizeField w % 32768 + 32768)
  else Chunk.withSizeField w (Chunk.sizeField w % 32768)

/-- Chunk::set_is_last. -/
def Chunk.set_is_last (w : Nat) (is_last : Bool) : Nat :=
  if is_last then Chunk.withPrevField w (Chunk.prevField w % 32768 + 32768)
  else Chunk.withPrevField w (Chunk.prevField w % 32768)

/-- Word-addressed memory: the heap region, one `Nat` per alignment unit. -/
def Mem : Type := Nat → Nat

/-- Write one word. -/
def memSet (m : Mem) (i v : Nat) : Mem := fun j => if j = i then v else m j

/-- `core::ptr::copy::<usize>(src, dst, count)`: memmove of `count` words. -/
def memCopy (m : Mem) (src dst count : Nat) : Mem :=
  fun j => if dst ≤ j ∧ j < dst + count then m (src + (j - dst)) else m j

/-- Chunk::next(): `None` iff LAST, else the address `self + size()` alignment units. -/
def Chunk.next_addr (m : Mem) (a : Nat) : Option Nat :=
  if Chunk.is_last (m a) then none else some (a + Chunk.size (m a))

/-- Chunk::previous(): `None` iff `prev_size() == 0`, else `self - prev_size()`. -/
def Chunk.previous_addr (m : Mem) (a : Nat) : Option Nat :=
  if Chunk.prev_size (m a) = 0 then none else some (a - Chunk.prev_size (m a))

/-- The Heap: the owned region (as word memory) plus the chunk count. -/
structure Heap where
  mem : Mem
  chunk_count : Nat

instance : Inhabited Heap := ⟨⟨fun _ => 0, 0⟩⟩

/-- Heap::first_chunk(): the chunk starting at the region's first byte. -/
def Heap.first_chunk : Nat := 0

/-- Heap::to_ptr: payload address, `hdr_csize()` alignment units past the header. -/
def Heap.to_ptr (a : Nat) : Nat := a + Chunk.hdr_csize

/-- Heap::from_ptr: header address, `hdr_csize()` alignment units before the payload. -/
def Heap.from_ptr (p : Nat) : Nat := p - Chunk.hdr_csize

/-- The loop body of Heap::new. The fuel argument only forces termination; the
loop consumes at least one alignment unit per iteration, so fuel = the initial
`alignment_unit_count` is always sufficient. Returns the written memory, the
number of chunks emitted, and the address of the last chunk emitted. -/
def Heap.init_loop : Nat → Mem → Nat → Nat → Nat → Except String (Mem × Nat × Nat)
  | 0, m, a, _, _ => Except.ok (m, 0, a)
  | fuel+1, m, a, prev_size, alignment_unit_count =>
    let size := min alignment_unit_count Chunk.max_size
    match Chunk.set_prev_size (m a) prev_size with
    | Except.error e => Except.error e
    | Except.ok w0 =>
      match Chunk.set_size w0 size with
      | Except.error e => Except.error e
      | Except.ok w1 =>
        let w2 := Chunk.set_is_allocated w1 false
        let w3 := Chunk.set_is_last w2 false
        let m1 := memSet m a w3
        let remaining := alignment_unit_count - size
        if remaining < Chunk.min_size then Except.ok (m1, 1, a)
        else
          match Heap.init_loop fuel m1 (a + size) size remaining with
          | Except.error e => Except.error e
          | Except.ok (m2, count, last) => Except.ok (m2, count + 1, last)

/-- Heap::new over a region of `len` bytes whose current contents are `m0`:
derives `alignment_unit_count = len / alignment()`, panics when that is below
`min_size()`, then emits chunks greedily and marks the final one LAST. -/
def Heap.new (m0 : Mem) (len : Nat) : Except String Heap :=
  let alignment_unit_count := len / Chunk.alignment
  if alignment_unit_count < Chunk.min_size then
    Except.error "heap must contain at least Chunk::min_size() alignment unit"
  else
    match Heap.init_loop alignment_unit_count m0 0 0 alignment_unit_count with
    | Except.error e => Except.error e
    | Except.ok (m, count, last) =>
      Except.ok ⟨memSet m last (Chunk.set_is_last (m last) true), count⟩

/-- Chunk::set_is_allocated applied through the heap to the chunk at `a`
(the flag flip performed by external allocation policy, as in the tests). -/
def Heap.set_is_allocated_at (st : Heap) (a : Nat) (allocated : Bool) : Heap :=
  ⟨memSet st.mem a (Chunk.set_is_allocated (st.mem a) allocated), st.chunk_count⟩

/-- Tail of Heap::absorb_next: the payload relocation. The source passes
`(c1.size() - hdr_csize()) * alignment()` as the ELEMENT count of
`ptr::copy::<usize>`, so that many whole words are copied. The subtraction
`c1.size() - hdr_csize()` is usize arithmetic (debug builds panic on underflow). -/
def Heap.absorb_finish (m : Mem) (a c1 count : Nat) : Except String Heap :=
  if Chunk.is_allocated (m c1) then
    if Chunk.size (m c1) < Chunk.hdr_csize then
      Except.error "attempt to subtract with overflow"
    else
      Except.ok ⟨memCopy m (Heap.to_ptr c1) (Heap.to_ptr a)
        ((Chunk.size (m c1) - Chunk.hdr_csize) * Chunk.alignment), count⟩
  else Except.ok ⟨m, count⟩

/-- Middle of Heap::absorb_next: `if let Some(c) = c0.next() { c.set_prev_size(c0.size()) }`. -/
def Heap.absorb_link (m : Mem) (a c1 count : Nat) : Except String Heap :=
  match Chunk.next_addr m a with
  | some c2 =>
    match Chunk.set_prev_size (m c2) (Chunk.size (m a)) with
    | Except.error e => Except.error e
    | Except.ok w2 => Heap.absorb_finish (memSet m c2 w2) a c1 count
  | none => Heap.absorb_finish m a c1 count

/-- Heap::absorb_next(c0): merge the successor of the chunk at `a` into it. -/
def Heap.absorb_next (st : Heap) (a : Nat) : Except String Heap :=
  match Chunk.next_addr st.mem a with
  | none => Except.ok st
  | some c1 =>
    if Chunk.is_allocated (st.mem a) ∧ Chunk.is_allocated (st.mem c1) then
      Except.error "Chunks must not be both allocated"
    else
      let new_size := Chunk.size (st.mem a) + Chunk.size (st.mem c1)
      if Chunk.max_size < new_size then Except.ok st
      else
        let count := st.chunk_count - 1
        match Chunk.set_size (st.mem a) new_size with
        | Except.error e => Except.error e
        | Except.ok w =>
          let m1 := memSet st.mem a w
          let m2 := memSet m1 a (Chunk.set_is_last (m1 a) (Chunk.is_last (m1 c1)))
          let b := Chunk.is_allocated (m2 a) || Chunk.is_allocated (m2 c1)
          let m3 := memSet m2 a (Chunk.set_is_allocated (m2 a) b)
          Heap.absorb_link m3 a c1 count

/-- Heap::split(c0, size): partition the chunk at `a` at boundary `size`.
The first statement `let new_size = c0.size() - size;` is usize arithmetic:
debug builds panic on underflow, which the model makes explicit. -/
def Heap.split (st : Heap) (a size : Nat) : Except String (Heap × Option Nat) :=
  if Chunk.size (st.mem a) < size then
    Except.error "attempt to subtract with overflow"
  else
    let new_size := Chunk.size (st.mem a) - size
    if new_size < Chunk.min_size ∨ size < Chunk.min_size then Except.ok (st, none)
    else
      let count := st.chunk_count + 1
      let c2 := Chunk.next_addr st.mem a
      match Chunk.set_size (st.mem a) size with
      | Except.error e => Except.error e
      | Except.ok w =>
        let m1 := memSet st.mem a w
        let m2 := memSet m1 a (Chunk.set_is_last (m1 a) false)
        let c1 := a + Chunk.size (m2 a)
        match Chunk.set_size (m2 c1) new_size with
        | Except.error e => Except.error e
        | Except.ok w1 =>
          let m3 := memSet m2 c1 w1
          match Chunk.set_prev_size (m3 c1) size with
          | Except.error e => Except.error e
          | Except.ok w1b =>
            let m4 := memSet m3 c1 w1b
            let m5 := memSet m4 c1 (Chunk.set_is_allocated (m4 c1) false)
            match c2 with
            | some c2a =>
              match Chunk.set_prev_size (m5 c2a) new_size with
              | Except.error e => Except.error e
              | Except.ok w2 =>
                let m6 := memSet m5 c2a w2
                let m7 := memSet m6 c1 (Chunk.set_is_last (m6 c1) false)
                Except.ok (⟨m7, count⟩, some c1)
            | none =>
              let m6 := memSet m5 c1 (Chunk.set_is_last (m5 c1) true)
              Except.ok (⟨m6, count⟩, some c1)

/-- Loop of Heap::find (fuel-bounded walk along `next()`). -/
def Heap.find_loop (m : Mem) : Nat → Nat → Nat → Option Nat
  | 0, _, _ => none
  | fuel+1, a, size =>
    if Chunk.size (m a) < size ∨ Chunk.is_allocated (m a) then
      match Chunk.next_addr m a with
      | some c => Heap.find_loop m fuel c size
      | none => none
    else some a

/-- Heap::find(size): first-fit scan from the first chunk. -/
def Heap.find (st : Heap) (size : Nat) : Option Nat :=
  Heap.find_loop st.mem st.chunk_count Heap.first_chunk size

/-- Addresses of the chunk list, walking `next()` from `a`; fuel bounds the walk
(the chunk count of a well-formed heap is always enough fuel). -/
def chainAddrs (m : Mem) : Nat → Nat → List Nat
  | 0, _ => []
  | fuel+1, a =>
    a :: (if Chunk.is_last (m a) then [] else chainAddrs m fuel (a + Chunk.size (m a)))

/-- Sizes of the chunk list, walking `next()` from `a`. -/
def chainSizes (m : Mem) : Nat → Nat → List Nat
  | 0, _ => []
  | fuel+1, a =>
    Chunk.size (m a) ::
      (if Chunk.is_last (m a) then [] else chainSizes m fuel (a + Chunk.size (m a)))

/-! ## The chunk lists produced by initialization -/

/-- The sizes emitted by the greedy loop of Heap::new for `alignment_unit_count`
remaining units (fuel as in `Heap.init_loop`). -/
def Heap.init_sizes : Nat → Nat → List Nat
  | 0, _ => []
  | fuel+1, alignment_unit_count =>
    let size := min alignment_unit_count Chunk.max_size
    if alignment_unit_count - size < Chunk.min_size then [size]
    else size :: Heap.init_sizes fuel (alignment_unit_count - size)

/-- The capacity (total of all chunk sizes) Heap::new assigns to a region of `N`
alignment units. -/
def Heap.init_capacity (N : Nat) : Nat := (Heap.init_sizes N N).sum

/-- The memory starting at `a` realizes the chunk list `L` (all free): headers are
linked by prev_size, the final chunk is LAST, and every size is at least min_size. -/
def Realizes (m : Mem) : Nat → Nat → List Nat → Prop
  | _, _, [] => False
  | a, prev, [s] =>
    Chunk.prev_size (m a) = prev ∧ Chunk.size (m a) = s ∧
    Chunk.is_allocated (m a) = false ∧ Chunk.is_last (m a) = true ∧
    Chunk.min_size ≤ s
  | a, prev, s :: s2 :: rest =>
    Chunk.prev_size (m a) = prev ∧ Chunk.size (m a) = s ∧
    Chunk.is_allocated (m a) = false ∧ Chunk.is_last (m a) = false ∧
    Chunk.min_size ≤ s ∧ Realizes m (a + s) s (s2 :: rest)

/-- Like `Realizes`, but with every chunk (the final one included) still carrying
LAST = false: the state of the init loop before the trailing set_is_last(true). -/
def RealizesOpen (m : Mem) : Nat → Nat → List Nat → Prop
  | _, _, [] => True
  | a, prev, s :: rest =>
    Chunk.prev_size (m a) = prev ∧ Chunk.size (m a) = s ∧
    Chunk.is_allocated (m a) = false ∧ Chunk.is_last (m a) = false ∧
    Chunk.min_size ≤ s ∧ RealizesOpen m (a + s) s rest

/-- Addresses of the chunks of a realized list. -/
def addrList (a : Nat) : List Nat → List Nat
  | [] => []
  | s :: rest => a :: addrList (a + s) rest

/-- Heap states reachable from Heap::new by any finite sequence of split and
absorb_next calls, each applied to a valid chunk address of the current state. -/
inductive Reached (m0 : Mem) (len : Nat) : Heap → Prop
  | init (st : Heap) : Heap.new m0 len = Except.ok st → Reached m0 len st
  | split_step (st st' : Heap) (a s : Nat) (r : Option Nat) :
      Reached m0 len st →
      a ∈ chainAddrs st.mem st.chunk_count Heap.first_chunk →
      Heap.split st a s = Except.ok (st', r) →
      Reached m0 len st'
  | absorb_step (st st' : Heap) (a : Nat) :
      Reached m0 len st →
      a ∈ chainAddrs st.mem st.chunk_count Heap.first_chunk →
      Heap.absorb_next st a = Except.ok st' →
      Reached m0 len st'

/-! ## Concrete scenario states -/

/-- An all-zero initial region, as the zero-filled buffers of the tests. -/
def memZero : Mem := fun _ => 0

/-- Extract the heap of a successful computation (default on panic). -/
def getOk (x : Except String Heap) : Heap :=
  match x with
  | Except.ok st => st
  | Except.error _ => default

/-- Extract the heap of a successful split (default on panic). -/
def getOkSplit (x : Except String (Heap × Option Nat)) : Heap :=
  match x with
  | Except.ok (st, _) => st
  | Except.error _ => default

/-- A 160-byte region (20 alignment units): one free chunk of size 20. -/
def demoHeap0 : Heap := getOk (Heap.new memZero 160)

/-- After split(c0, 2): chunks of sizes 2 and 18 at word addresses 0 and 2. -/
def demoHeap1 : Heap := getOkSplit (Heap.split demoHeap0 0 2)

/-- After a second split at address 2: chunks 2, 2, 16 at addresses 0, 2, 4. -/
def demoHeap2 : Heap := getOkSplit (Heap.split demoHeap1 2 2)

/-- The middle chunk (address 2) marked allocated. -/
def demoHeap3 : Heap := Heap.set_is_allocated_at demoHeap2 2 true

/-- After absorb_next on the free first chunk: the allocated successor is merged
and its payload relocated by the word-granular copy. -/
def demoHeap4 : Heap := getOk (Heap.absorb_next demoHeap3 0)

/-- A 16-byte region: a single chunk of the minimum size 2. -/
def c4state : Heap := getOk (Heap.new memZero 16)

/-- A 262144-byte region: 32768 alignment units, one unit beyond MAX_CHUNK. -/
def c5state : Heap := getOk (Heap.new memZero 262144)

/-- The init capacity as the spec words describe it (for claim C5): the largest
integer at most N whose residual cannot form another MIN_CHUNK chunk.
Modelled from the spec, to be compared against the code. -/
def specInitCapacity (N : Nat) : Nat :=
  Nat.findGreatest (fun m => N - m < Chunk.min_size) N

/-- A 524280-byte region (65535 units): two chunks of sizes 32767 and 32767,
one residual unit discarded. -/
def w8state : Heap := getOk (Heap.new memZero 524280)

/-- The two adjacent 32767-unit chunks both marked allocated. -/
def w10state : Heap :=
  Heap.set_is_allocated_at (Heap.set_is_allocated_at w8state 0 true) 32767 true

/-! ## Arithmetic facts about header fields -/

theorem Chunk.min_size_eq : Chunk.min_size = 2 := rfl

theorem Chunk.max_size_eq : Chunk.max_size = 32767 := rfl

theorem Chunk.hdr_csize_eq : Chunk.hdr_csize = 1 := rfl

theorem Chunk.alignment_eq : Chunk.alignment = 8 := rfl

theorem Chunk.size_lt (w : Nat) : Chunk.size w < 32768 :=
  Nat.mod_lt _ (by omega)

theorem Chunk.size_le_max (w : Nat) : Chunk.size w ≤ Chunk.max_size := by
  have := Chunk.size_lt w
  rw [Chunk.max_size_eq]
  omega

theorem Chunk.prev_size_lt (w : Nat) : Chunk.prev_size w < 32768 :=
  Nat.mod_lt _ (by omega)

theorem Chunk.sizeField_lt (w : Nat) : Chunk.sizeField w < 65536 :=
  Nat.mod_lt _ (by omega)

theorem Chunk.prevField_lt (w : Nat) : Chunk.prevField w < 65536 :=
  Nat.mod_lt _ (by omega)

theorem Chunk.sizeField_withPrevField (w v : Nat) :
    Chunk.sizeField (Chunk.withPrevField w v) = Chunk.sizeField w := by
  unfold Chunk.sizeField Chunk.withPrevField
  omega

theorem Chunk.prevField_withPrevField (w v : Nat) :
    Chunk.prevField (Chunk.withPrevField w v) = v % 65536 := by
  unfold Chunk.prevField Chunk.withPrevField
  omega

theorem Chunk.sizeField_withSizeField (w v : Nat) :
    Chunk.sizeField (Chunk.withSizeField w v) = v % 65536 := by
  unfold Chunk.sizeField Chunk.withSizeField
  omega

theorem Chunk.prevField_withSizeField (w v : Nat) :
    Chunk.prevField (Chunk.withSizeField w v) = Chunk.prevField w := by
  unfold Chunk.prevField Chunk.withSizeField
  omega

/-! ## Behaviour of the four mutators on the four accessors -/

theorem Chunk.set_size_spec (w n : Nat)
    (h1 : Chunk.min_size ≤ n) (h2 : n ≤ Chunk.max_size) :
    ∃ w', Chunk.set_size w n = Except.ok w' ∧
      Chunk.size w' = n ∧
      Chunk.is_allocated w' = Chunk.is_allocated w ∧
      Chunk.prev_size w' = Chunk.prev_size w ∧
      Chunk.is_last w' = Chunk.is_last w := by
  rw [Chunk.min_size_eq] at h1
  rw [Chunk.max_size_eq] at h2
  refine ⟨Chunk.withSizeField w
    (n % 65536 % 32768 + Chunk.sizeField w / 32768 * 32768), ?_, ?_, ?_, ?_, ?_⟩
  · rw [Chunk.set_size, if_neg]
    rw [Chunk.min_size_eq, Chunk.max_size_eq]
    omega
  · rw [Chunk.size, Chunk.sizeField_withSizeField]
    have := Chunk.sizeField_lt w
    omega
  · rw [Chunk.is_allocated, Chunk.is_allocated, decide_eq_decide,
      Chunk.sizeField_withSizeField]
    have := Chunk.sizeField_lt w
    omega
  · rw [Chunk.prev_size, Chunk.prev_size, Chunk.prevField_withSizeField]
  · rw [Chunk.is_last, Chunk.is_last, decide_eq_decide, Chunk.prevField_withSizeField]

theorem Chunk.set_size_err (w n : Nat)
    (h : n < Chunk.min_size ∨ Chunk.max_size < n) :
    Chunk.set_size w n =
      Except.error "size must be in Chunk::min_size()...Chunk::max_size()" := by
  rw [Chunk.set_size, if_pos h]

theorem Chunk.set_prev_size_spec (w n : Nat)
    (h : n = 0 ∨ (Chunk.min_size ≤ n ∧ n ≤ Chunk.max_size)) :
    ∃ w', Chunk.set_prev_size w n = Except.ok w' ∧
      Chunk.prev_size w' = n ∧
      Chunk.is_last w' = Chunk.is_last w ∧
      Chunk.size w' = Chunk.size w ∧
      Chunk.is_allocated w' = Chunk.is_allocated w ∧
      Chunk.sizeField w' = Chunk.sizeField w := by
  rw [Chunk.min_size_eq, Chunk.max_size_eq] at h
  refine ⟨Chunk.withPrevField w
    (n % 65536 % 32768 + Chunk.prevField w / 32768 * 32768), ?_, ?_, ?_, ?_, ?_, ?_⟩
  · rw [Chunk.set_prev_size, if_neg]
    rw [Chunk.min_size_eq, Chunk.max_size_eq]
    omega
  · rw [Chunk.prev_size, Chunk.prevField_withPrevField]
    have := Chunk.prevField_lt w
    omega
  · rw [Chunk.is_last, Chunk.is_last, decide_eq_decide, Chunk.prevField_withPrevField]
    have := Chunk.prevField_lt w
    omega
  · rw [Chunk.size, Chunk.size, Chunk.sizeField_withPrevField]
  · rw [Chunk.is_allocated, Chunk.is_allocated, decide_eq_decide,
      Chunk.sizeField_withPrevField]
  · rw [Chunk.sizeField_withPrevField]

theorem Chunk.set_prev_size_err (w n : Nat)
    (h : n ≠ 0 ∧ (n < Chunk.min_size ∨ Chunk.max_size < n)) :
    Chunk.set_prev_size w n =
      Except.error "prev_size must be in Chunk::min_size()...Chunk::max_size()" := by
  rw [Chunk.set_prev_size, if_pos h]

theorem Chunk.set_is_allocated_spec (w : Nat) (b : Bool) :
    Chunk.size (Chunk.set_is_allocated w b) = Chunk.size w ∧
    Chunk.is_allocated (Chunk.set_is_allocated w b) = b ∧
    Chunk.prev_size (Chunk.set_is_allocated w b) = Chunk.prev_size w ∧
    Chunk.is_last (Chunk.set_is_allocated w b) = Chunk.is_last w := by
  have hs := Chunk.sizeField_lt w
  cases b
  all_goals
    refine ⟨?_, ?_, ?_, ?_⟩
  · rw [Chunk.set_is_allocated, if_neg Bool.false_ne_true, Chunk.size, Chunk.size,
      Chunk.sizeField_withSizeField]
    omega
  · rw [Chunk.set_is_allocated, if_neg Bool.false_ne_true, Chunk.is_allocated,
      Chunk.sizeField_withSizeField]
    simp
    omega
  · rw [Chunk.set_is_allocated, if_neg Bool.false_ne_true, Chunk.prev_size,
      Chunk.prev_size, Chunk.prevField_withSizeField]
  · rw [Chunk.set_is_allocated, if_neg Bool.false_ne_true, Chunk.is_last, Chunk.is_last,
      decide_eq_decide, Chunk.prevField_withSizeField]
  · rw [Chunk.set_is_allocated, if_pos rfl, Chunk.size, Chunk.size,
      Chunk.sizeField_withSizeField]
    omega
  · rw [Chunk.set_is_allocated, if_pos rfl, Chunk.is_allocated,
      Chunk.sizeField_withSizeField]
    simp
    omega
  · rw [Chunk.set_is_allocated, if_pos rfl, Chunk.prev_size, Chunk.prev_size,
      Chunk.prevField_withSizeField]
  · rw [Chunk.set_is_allocated, if_pos rfl, Chunk.is_last, Chunk.is_last,
      decide_eq_decide, Chunk.prevField_withSizeField]

theorem Chunk.set_is_last_spec (w : Nat) (b : Bool) :
    Chunk.prev_size (Chunk.set_is_last w b) = Chunk.prev_size w ∧
    Chunk.is_last (Chunk.set_is_last w b) = b ∧
    Chunk.size (Chunk.set_is_last w b) = Chunk.size w ∧
    Chunk.is_allocated (Chunk.set_is_last w b) = Chunk.is_allocated w := by
  have hp := Chunk.prevField_lt w
  cases b
  all_goals
    refine ⟨?_, ?_, ?_, ?_⟩
  · rw [Chunk.set_is_last, if_neg Bool.false_ne_true, Chunk.prev_size, Chunk.prev_size,
      Chunk.prevField_withPrevField]
    omega
  · rw [Chunk.set_is_last, if_neg Bool.false_ne_true, Chunk.is_last,
      Chunk.prevField_withPrevField]
    simp
    omega
  · rw [Chunk.set_is_last, if_neg Bool.false_ne_true, Chunk.size, Chunk.size,
      Chunk.sizeField_withPrevField]
  · rw [Chunk.set_is_last, if_neg Bool.false_ne_true, Chunk.is_allocated,
      Chunk.is_allocated, decide_eq_decide, Chunk.sizeField_withPrevField]
  · rw [Chunk.set_is_last, if_pos rfl, Chunk.prev_size, Chunk.prev_size,
      Chunk.prevField_withPrevField]
    omega
  · rw [Chunk.set_is_last, if_pos rfl, Chunk.is_last, Chunk.prevField_withPrevField]
    simp
    omega
  · rw [Chunk.set_is_last, if_pos rfl, Chunk.size, Chunk.size,
      Chunk.sizeField_withPrevField]
  · rw [Chunk.set_is_last, if_pos rfl, Chunk.is_allocated, Chunk.is_allocated,
      decide_eq_decide, Chunk.sizeField_withPrevField]

theorem memSet_self (m : Mem) (i v : Nat) : memSet m i v i = v := by
  rw [memSet, if_pos rfl]

theorem memSet_ne (m : Mem) (i v j : Nat) (h : j ≠ i) : memSet m i v j = m j := by
  rw [memSet, if_neg h]

theorem memCopy_in (m : Mem) (src dst count j : Nat)
    (h1 : dst ≤ j) (h2 : j < dst + count) :
    memCopy m src dst count j = m (src + (j - dst)) := by
  rw [memCopy, if_pos ⟨h1, h2⟩]

theorem memCopy_out (m : Mem) (src dst count j : Nat)
    (h : j < dst ∨ dst + count ≤ j) :
    memCopy m src dst count j = m j := by
  rw [memCopy, if_neg]
  omega

theorem Chunk.size_set_is_last (w : Nat) (b : Bool) :
    Chunk.size (Chunk.set_is_last w b) = Chunk.size w :=
  (Chunk.set_is_last_spec w b).2.2.1

theorem Chunk.prev_size_set_is_last (w : Nat) (b : Bool) :
    Chunk.prev_size (Chunk.set_is_last w b) = Chunk.prev_size w :=
  (Chunk.set_is_last_spec w b).1

theorem Chunk.is_last_set_is_last (w : Nat) (b : Bool) :
    Chunk.is_last (Chunk.set_is_last w b) = b :=
  (Chunk.set_is_last_spec w b).2.1

theorem Chunk.is_allocated_set_is_last (w : Nat) (b : Bool) :
    Chunk.is_allocated (Chunk.set_is_last w b) = Chunk.is_allocated w :=
  (Chunk.set_is_last_spec w b).2.2.2

theorem Chunk.size_set_is_allocated (w : Nat) (b : Bool) :
    Chunk.size (Chunk.set_is_allocated w b) = Chunk.size w :=
  (Chunk.set_is_allocated_spec w b).1

theorem Chunk.prev_size_set_is_allocated (w : Nat) (b : Bool) :
    Chunk.prev_size (Chunk.set_is_allocated w b) = Chunk.prev_size w :=
  (Chunk.set_is_allocated_spec w b).2.2.1

theorem Chunk.is_allocated_set_is_allocated (w : Nat) (b : Bool) :
    Chunk.is_allocated (Chunk.set_is_allocated w b) = b :=
  (Chunk.set_is_allocated_spec w b).2.1

theorem Chunk.is_last_set_is_allocated (w : Nat) (b : Bool) :
    Chunk.is_last (Chunk.set_is_allocated w b) = Chunk.is_last w :=
  (Chunk.set_is_allocated_spec w b).2.2.2

/-- Characterization of a successful Heap::split. -/
theorem Heap.split_success (st : Heap) (a s : Nat)
    (h1 : Chunk.min_size ≤ s)
    (h2 : Chunk.min_size ≤ Chunk.size (st.mem a) - s)
    (hle : s ≤ Chunk.size (st.mem a)) :
    ∃ st', Heap.split st a s = Except.ok (st', some (a + s)) ∧
      st'.chunk_count = st.chunk_count + 1 ∧
      (∀ j, j ≠ a → j ≠ a + s → j ≠ a + Chunk.size (st.mem a) → st'.mem j = st.mem j) ∧
      Chunk.prev_size (st'.mem a) = Chunk.prev_size (st.mem a) ∧
      Chunk.size (st'.mem a) = s ∧
      Chunk.is_allocated (st'.mem a) = Chunk.is_allocated (st.mem a) ∧
      Chunk.is_last (st'.mem a) = false ∧
      Chunk.prev_size (st'.mem (a + s)) = s ∧
      Chunk.size (st'.mem (a + s)) = Chunk.size (st.mem a) - s ∧
      Chunk.is_allocated (st'.mem (a + s)) = false ∧
      Chunk.is_last (st'.mem (a + s)) = Chunk.is_last (st.mem a) ∧
      (Chunk.is_last (st.mem a) = true →
        st'.mem (a + Chunk.size (st.mem a)) = st.mem (a + Chunk.size (st.mem a))) ∧
      (Chunk.is_last (st.mem a) = false →
        Chunk.prev_size (st'.mem (a + Chunk.size (st.mem a))) = Chunk.size (st.mem a) - s ∧
        Chunk.size (st'.mem (a + Chunk.size (st.mem a))) =
          Chunk.size (st.mem (a + Chunk.size (st.mem a))) ∧
        Chunk.is_allocated (st'.mem (a + Chunk.size (st.mem a))) =
          Chunk.is_allocated (st.mem (a + Chunk.size (st.mem a))) ∧
        Chunk.is_last (st'.mem (a + Chunk.size (st.mem a))) =
          Chunk.is_last (st.mem (a + Chunk.size (st.mem a)))) := by
  have hmax := Chunk.size_le_max (st.mem a)
  rw [Chunk.min_size_eq] at h1 h2
  obtain ⟨wA, hwA, hA_size, hA_alloc, hA_prev, hA_last⟩ :=
    Chunk.set_size_spec (st.mem a) s (by rw [Chunk.min_size_eq]; omega)
      (le_trans hle hmax)
  have r1 : ∀ (m : Mem) v, memSet m a v (a + s) = m (a + s) := fun m v =>
    memSet_ne m a v (a + s) (by omega)
  have r2 : ∀ (m : Mem) v, memSet m (a + s) v a = m a := fun m v =>
    memSet_ne m (a + s) v a (by omega)
  have r3 : ∀ (m : Mem) v,
      memSet m a v (a + Chunk.size (st.mem a)) = m (a + Chunk.size (st.mem a)) :=
    fun m v => memSet_ne m a v _ (by omega)
  have r4 : ∀ (m : Mem) v,
      memSet m (a + s) v (a + Chunk.size (st.mem a)) = m (a + Chunk.size (st.mem a)) :=
    fun m v => memSet_ne m (a + s) v _ (by omega)
  have r5 : ∀ (m : Mem) v, memSet m (a + Chunk.size (st.mem a)) v a = m a := fun m v =>
    memSet_ne m _ v a (by omega)
  have r6 : ∀ (m : Mem) v, memSet m (a + Chunk.size (st.mem a)) v (a + s) = m (a + s) :=
    fun m v => memSet_ne m _ v (a + s) (by omega)
  obtain ⟨wB, hwB, hB_size, hB_alloc, hB_prev, hB_last⟩ :=
    Chunk.set_size_spec (st.mem (a + s)) (Chunk.size (st.mem a) - s)
      (by rw [Chunk.min_size_eq]; omega) (by rw [Chunk.max_size_eq] at hmax ⊢; omega)
  obtain ⟨wBp, hwBp, hBp_prev, hBp_last, hBp_size, hBp_alloc, hBp_field⟩ :=
    Chunk.set_prev_size_spec wB s
      (Or.inr ⟨by rw [Chunk.min_size_eq]; omega,
               by rw [Chunk.max_size_eq] at hmax ⊢; omega⟩)
  have hc1 : ¬ Chunk.size (st.mem a) < s := by omega
  have hc2 : ¬ (Chunk.size (st.mem a) - s < Chunk.min_size ∨ s < Chunk.min_size) := by
    rw [Chunk.min_size_eq]; omega
  cases hL : Chunk.is_last (st.mem a) with
  | true =>
    refine ⟨⟨memSet (memSet (memSet (memSet (memSet (memSet st.mem a wA) a
        (Chunk.set_is_last wA false)) (a + s) wB) (a + s) wBp) (a + s)
        (Chunk.set_is_allocated wBp false)) (a + s)
        (Chunk.set_is_last (Chunk.set_is_allocated wBp false) true),
      st.chunk_count + 1⟩, ?_, rfl, ?_, ?_, ?_, ?_, ?_, ?_, ?_, ?_, ?_, ?_, ?_⟩
    · simp only [Heap.split]
      rw [if_neg hc1, if_neg hc2, hwA]
      simp only [memSet_self, r1, r2, r3, r4, r5, r6, hA_size, hB_size, hBp_size,
        Chunk.size_set_is_last, Chunk.size_set_is_allocated]
      rw [hwB]
      simp only [memSet_self, r1, r2, r3, r4, r5, r6]
      rw [hwBp]
      simp only [Chunk.next_addr, hL, if_true, memSet_self, r1, r2, r3, r4, r5, r6]
    · intro j hj1 hj2 _
      simp [memSet_ne, hj1, hj2]
    · simp [memSet_self, r1, r2, r3, r4, r5, r6, hA_prev,
        Chunk.prev_size_set_is_last, Chunk.prev_size_set_is_allocated]
    · simp [memSet_self, r1, r2, r3, r4, r5, r6, hA_size,
        Chunk.size_set_is_last, Chunk.size_set_is_allocated]
    · simp [memSet_self, r1, r2, r3, r4, r5, r6, hA_alloc,
        Chunk.is_allocated_set_is_last, Chunk.is_allocated_set_is_allocated]
    · simp [memSet_self, r1, r2, r3, r4, r5, r6, Chunk.is_last_set_is_last]
    · simp [memSet_self, r1, r2, r3, r4, r5, r6, hBp_prev,
        Chunk.prev_size_set_is_last, Chunk.prev_size_set_is_allocated]
    · simp [memSet_self, r1, r2, r3, r4, r5, r6, hBp_size, hB_size,
        Chunk.size_set_is_last, Chunk.size_set_is_allocated]
    · simp [memSet_self, r1, r2, r3, r4, r5, r6,
        Chunk.is_allocated_set_is_last, Chunk.is_allocated_set_is_allocated]
    · simp [memSet_self, r1, r2, r3, r4, r5, r6, hL, Chunk.is_last_set_is_last]
    · intro _
      simp [memSet_self, r1, r2, r3, r4, r5, r6]
    · intro h
      simp at h
  | false =>
    obtain ⟨wC, hwC, hC_prev, hC_last, hC_size, hC_alloc, hC_field⟩ :=
      Chunk.set_prev_size_spec (st.mem (a + Chunk.size (st.mem a)))
        (Chunk.size (st.mem a) - s)
        (Or.inr ⟨by rw [Chunk.min_size_eq]; omega,
                 by rw [Chunk.max_size_eq] at hmax ⊢; omega⟩)
    refine ⟨⟨memSet (memSet (memSet (memSet (memSet (memSet (memSet st.mem a wA) a
        (Chunk.set_is_last wA false)) (a + s) wB) (a + s) wBp) (a + s)
        (Chunk.set_is_allocated wBp false)) (a + Chunk.size (st.mem a)) wC) (a + s)
        (Chunk.set_is_last (Chunk.set_is_allocated wBp false) false),
      st.chunk_count + 1⟩, ?_, rfl, ?_, ?_, ?_, ?_, ?_, ?_, ?_, ?_, ?_, ?_, ?_⟩
    · simp only [Heap.split]
      rw [if_neg hc1, if_neg hc2, hwA]
      simp only [memSet_self, r1, r2, r3, r4, r5, r6, hA_size, hB_size, hBp_size,
        Chunk.size_set_is_last, Chunk.size_set_is_allocated]
      rw [hwB]
      simp only [memSet_self, r1, r2, r3, r4, r5, r6]
      rw [hwBp]
      simp only [Chunk.next_addr, hL, Bool.false_eq_true, if_false, memSet_self,
        r1, r2, r3, r4, r5, r6]
      rw [hwC]
    · intro j hj1 hj2 hj3
      simp [memSet_ne, hj1, hj2, hj3]
    · simp [memSet_self, r1, r2, r3, r4, r5, r6, hA_prev,
        Chunk.prev_size_set_is_last, Chunk.prev_size_set_is_allocated]
    · simp [memSet_self, r1, r2, r3, r4, r5, r6, hA_size,
        Chunk.size_set_is_last, Chunk.size_set_is_allocated]
    · simp [memSet_self, r1, r2, r3, r4, r5, r6, hA_alloc,
        Chunk.is_allocated_set_is_last, Chunk.is_allocated_set_is_allocated]
    · simp [memSet_self, r1, r2, r3, r4, r5, r6, Chunk.is_last_set_is_last]
    · simp [memSet_self, r1, r2, r3, r4, r5, r6, hBp_prev,
        Chunk.prev_size_set_is_last, Chunk.prev_size_set_is_allocated]
    · simp [memSet_self, r1, r2, r3, r4, r5, r6, hBp_size, hB_size,
        Chunk.size_set_is_last, Chunk.size_set_is_allocated]
    · simp [memSet_self, r1, r2, r3, r4, r5, r6,
        Chunk.is_allocated_set_is_last, Chunk.is_allocated_set_is_allocated]
    · simp [memSet_self, r1, r2, r3, r4, r5, r6, hL, Chunk.is_last_set_is_last]
    · intro h
      simp at h
    · intro _
      refine ⟨?_, ?_, ?_, ?_⟩
      · simp [memSet_self, r1, r2, r3, r4, r5, r6, hC_prev]
      · simp [memSet_self, r1, r2, r3, r4, r5, r6, hC_size]
      · simp [memSet_self, r1, r2, r3, r4, r5, r6, hC_alloc]
      · simp [memSet_self, r1, r2, r3, r4, r5, r6, hC_last]

/-- Heap::absorb_next on the last chunk: c0.next() is None, immediate return. -/
theorem Heap.absorb_next_none (st : Heap) (a : Nat)
    (h : Chunk.is_last (st.mem a) = true) :
    Heap.absorb_next st a = Except.ok st := by
  simp [Heap.absorb_next, Chunk.next_addr, h]

/-- Heap::absorb_next panics when both chunks are allocated, before any other check. -/
theorem Heap.absorb_next_both_allocated (st : Heap) (a : Nat)
    (hnl : Chunk.is_last (st.mem a) = false)
    (h0 : Chunk.is_allocated (st.mem a) = true)
    (h1 : Chunk.is_allocated (st.mem (a + Chunk.size (st.mem a))) = true) :
    Heap.absorb_next st a = Except.error "Chunks must not be both allocated" := by
  simp [Heap.absorb_next, Chunk.next_addr, hnl, h0, h1]

/-- Heap::absorb_next is a silent no-op when the merged size would exceed max_size. -/
theorem Heap.absorb_next_overflow (st : Heap) (a : Nat)
    (hnl : Chunk.is_last (st.mem a) = false)
    (hna : ¬(Chunk.is_allocated (st.mem a) = true ∧
             Chunk.is_allocated (st.mem (a + Chunk.size (st.mem a))) = true))
    (hov : Chunk.max_size <
      Chunk.size (st.mem a) + Chunk.size (st.mem (a + Chunk.size (st.mem a)))) :
    Heap.absorb_next st a = Except.ok st := by
  simp only [Heap.absorb_next, Chunk.next_addr, hnl, Bool.false_eq_true, if_false]
  rw [if_neg (by simpa using hna), if_pos hov]

/-- Characterization of Heap::absorb_next merging a free successor (no payload copy). -/
theorem Heap.absorb_merge_free (st : Heap) (a : Nat)
    (hnl : Chunk.is_last (st.mem a) = false)
    (hc1free : Chunk.is_allocated (st.mem (a + Chunk.size (st.mem a))) = false)
    (hS : Chunk.min_size ≤ Chunk.size (st.mem a))
    (hS1 : Chunk.min_size ≤ Chunk.size (st.mem (a + Chunk.size (st.mem a))))
    (hmax : Chunk.size (st.mem a) +
        Chunk.size (st.mem (a + Chunk.size (st.mem a))) ≤ Chunk.max_size) :
    ∃ st', Heap.absorb_next st a = Except.ok st' ∧
      st'.chunk_count = st.chunk_count - 1 ∧
      (∀ j, j ≠ a →
        j ≠ a + (Chunk.size (st.mem a) + Chunk.size (st.mem (a + Chunk.size (st.mem a)))) →
        st'.mem j = st.mem j) ∧
      Chunk.prev_size (st'.mem a) = Chunk.prev_size (st.mem a) ∧
      Chunk.size (st'.mem a) =
        Chunk.size (st.mem a) + Chunk.size (st.mem (a + Chunk.size (st.mem a))) ∧
      Chunk.is_allocated (st'.mem a) = Chunk.is_allocated (st.mem a) ∧
      Chunk.is_last (st'.mem a) = Chunk.is_last (st.mem (a + Chunk.size (st.mem a))) ∧
      (Chunk.is_last (st.mem (a + Chunk.size (st.mem a))) = true →
        ∀ j, j ≠ a → st'.mem j = st.mem j) ∧
      (Chunk.is_last (st.mem (a + Chunk.size (st.mem a))) = false →
        Chunk.prev_size (st'.mem (a + (Chunk.size (st.mem a) +
            Chunk.size (st.mem (a + Chunk.size (st.mem a)))))) =
          Chunk.size (st.mem a) + Chunk.size (st.mem (a + Chunk.size (st.mem a))) ∧
        Chunk.size (st'.mem (a + (Chunk.size (st.mem a) +
            Chunk.size (st.mem (a + Chunk.size (st.mem a)))))) =
          Chunk.size (st.mem (a + (Chunk.size (st.mem a) +
            Chunk.size (st.mem (a + Chunk.size (st.mem a)))))) ∧
        Chunk.is_allocated (st'.mem (a + (Chunk.size (st.mem a) +
            Chunk.size (st.mem (a + Chunk.size (st.mem a)))))) =
          Chunk.is_allocated (st.mem (a + (Chunk.size (st.mem a) +
            Chunk.size (st.mem (a + Chunk.size (st.mem a)))))) ∧
        Chunk.is_last (st'.mem (a + (Chunk.size (st.mem a) +
            Chunk.size (st.mem (a + Chunk.size (st.mem a)))))) =
          Chunk.is_last (st.mem (a + (Chunk.size (st.mem a) +
            Chunk.size (st.mem (a + Chunk.size (st.mem a))))))) := by
  rw [Chunk.min_size_eq] at hS hS1
  obtain ⟨w, hw, hw_size, hw_alloc, hw_prev, hw_last⟩ :=
    Chunk.set_size_spec (st.mem a)
      (Chunk.size (st.mem a) + Chunk.size (st.mem (a + Chunk.size (st.mem a))))
      (by rw [Chunk.min_size_eq]; omega) hmax
  have ra1 : ∀ (m : Mem) v, memSet m a v (a + Chunk.size (st.mem a)) =
      m (a + Chunk.size (st.mem a)) := fun m v => memSet_ne m a v _ (by omega)
  have ra2 : ∀ (m : Mem) v, memSet m a v
      (a + (Chunk.size (st.mem a) + Chunk.size (st.mem (a + Chunk.size (st.mem a))))) =
      m (a + (Chunk.size (st.mem a) + Chunk.size (st.mem (a + Chunk.size (st.mem a))))) :=
    fun m v => memSet_ne m a v _ (by omega)
  have ra3 : ∀ (m : Mem) v, memSet m
      (a + (Chunk.size (st.mem a) + Chunk.size (st.mem (a + Chunk.size (st.mem a))))) v a =
      m a := fun m v => memSet_ne m _ v a (by omega)
  have ra4 : ∀ (m : Mem) v, memSet m
      (a + (Chunk.size (st.mem a) + Chunk.size (st.mem (a + Chunk.size (st.mem a))))) v
      (a + Chunk.size (st.mem a)) = m (a + Chunk.size (st.mem a)) :=
    fun m v => memSet_ne m _ v _ (by omega)
  have hnb : ¬(Chunk.is_allocated (st.mem a) = true ∧
      Chunk.is_allocated (st.mem (a + Chunk.size (st.mem a))) = true) := by
    rw [hc1free]
    simp
  cases hL1 : Chunk.is_last (st.mem (a + Chunk.size (st.mem a))) with
  | true =>
    refine ⟨⟨memSet (memSet (memSet st.mem a w) a (Chunk.set_is_last w true)) a
        (Chunk.set_is_allocated (Chunk.set_is_last w true)
          (Chunk.is_allocated (st.mem a))),
      st.chunk_count - 1⟩, ?_, rfl, ?_, ?_, ?_, ?_, ?_, ?_, ?_⟩
    · simp only [Heap.absorb_next, Chunk.next_addr, hnl, Bool.false_eq_true, if_false]
      rw [if_neg (by simpa using hnb), if_neg (by omega), hw]
      simp only [Heap.absorb_link, Heap.absorb_finish, Chunk.next_addr,
        memSet_self, ra1, ra2, ra3, ra4, hL1, hc1free, hw_size, hw_alloc,
        Chunk.size_set_is_last, Chunk.size_set_is_allocated,
        Chunk.is_last_set_is_last, Chunk.is_last_set_is_allocated,
        Chunk.is_allocated_set_is_last,
        Chunk.is_allocated_set_is_allocated, Bool.or_false, if_true,
        Bool.false_eq_true, if_false]
    · intro j hj1 _
      simp [memSet_ne, hj1]
    · simp [memSet_self, hw_prev,
        Chunk.prev_size_set_is_last, Chunk.prev_size_set_is_allocated]
    · simp [memSet_self, hw_size,
        Chunk.size_set_is_last, Chunk.size_set_is_allocated]
    · simp [memSet_self,
        Chunk.is_allocated_set_is_last, Chunk.is_allocated_set_is_allocated]
    · simp [memSet_self, Chunk.is_last_set_is_last, Chunk.is_last_set_is_allocated]
    · intro _ j hj
      simp [memSet_ne, hj]
    · intro h
      simp at h
  | false =>
    obtain ⟨wC, hwC, hC_prev, hC_last, hC_size, hC_alloc, hC_field⟩ :=
      Chunk.set_prev_size_spec
        (st.mem (a + (Chunk.size (st.mem a) +
          Chunk.size (st.mem (a + Chunk.size (st.mem a))))))
        (Chunk.size (st.mem a) + Chunk.size (st.mem (a + Chunk.size (st.mem a))))
        (Or.inr ⟨by rw [Chunk.min_size_eq]; omega, hmax⟩)
    refine ⟨⟨memSet (memSet (memSet (memSet st.mem a w) a (Chunk.set_is_last w false)) a
        (Chunk.set_is_allocated (Chunk.set_is_last w false)
          (Chunk.is_allocated (st.mem a))))
        (a + (Chunk.size (st.mem a) + Chunk.size (st.mem (a + Chunk.size (st.mem a)))))
        wC,
      st.chunk_count - 1⟩, ?_, rfl, ?_, ?_, ?_, ?_, ?_, ?_, ?_⟩
    · simp only [Heap.absorb_next, Chunk.next_addr, hnl, Bool.false_eq_true, if_false]
      rw [if_neg (by simpa using hnb), if_neg (by omega), hw]
      simp only [Heap.absorb_link, Heap.absorb_finish, Chunk.next_addr,
        memSet_self, ra1, ra2, ra3, ra4, hL1, hc1free, hw_size, hw_alloc,
        Chunk.size_set_is_last, Chunk.size_set_is_allocated,
        Chunk.is_last_set_is_last, Chunk.is_last_set_is_allocated,
        Chunk.is_allocated_set_is_last,
        Chunk.is_allocated_set_is_allocated, Bool.or_false, Bool.false_eq_true,
        if_false]
      rw [hwC]
    · intro j hj1 hj2
      simp [memSet_ne, hj1, hj2]
    · simp [memSet_self, ra3, hw_prev,
        Chunk.prev_size_set_is_last, Chunk.prev_size_set_is_allocated]
    · simp [memSet_self, ra3, hw_size,
        Chunk.size_set_is_last, Chunk.size_set_is_allocated]
    · simp [memSet_self, ra3,
        Chunk.is_allocated_set_is_last, Chunk.is_allocated_set_is_allocated]
    · simp [memSet_self, ra3, Chunk.is_last_set_is_last, Chunk.is_last_set_is_allocated]
    · intro h
      simp at h
    · intro _
      refine ⟨?_, ?_, ?_, ?_⟩
      · simp [memSet_self, hC_prev]
      · simp [memSet_self, hC_size]
      · simp [memSet_self, hC_alloc]
      · simp [memSet_self, hC_last]

/-- Heap::split returns None (and mutates nothing) when the request or the
remainder would be undersized; the subtraction must not underflow for the
guard to be reached. -/
theorem Heap.split_none (st : Heap) (a s : Nat)
    (hle : s ≤ Chunk.size (st.mem a))
    (hsmall : s < Chunk.min_size ∨ Chunk.size (st.mem a) - s < Chunk.min_size) :
    Heap.split st a s = Except.ok (st, none) := by
  simp only [Heap.split]
  rw [if_neg (by omega), if_pos (by omega)]

/-- Heap::split panics (debug-build subtraction overflow) when asked for more
than the chunk holds. -/
theorem Heap.split_underflow (st : Heap) (a s : Nat)
    (h : Chunk.size (st.mem a) < s) :
    Heap.split st a s = Except.error "attempt to subtract with overflow" := by
  simp only [Heap.split]
  rw [if_pos h]

theorem realizes_ne_nil {m : Mem} {a prev : Nat} {L : List Nat}
    (h : Realizes m a prev L) : L ≠ [] := by
  cases L with
  | nil => exact absurd h (by simp [Realizes])
  | cons s rest => simp

theorem realizes_frame : ∀ (L : List Nat) (m m' : Mem) (a prev : Nat),
    Realizes m a prev L → (∀ j, a ≤ j → m' j = m j) → Realizes m' a prev L := by
  intro L
  induction L with
  | nil => intro m m' a prev h _; exact absurd h (by simp [Realizes])
  | cons s rest ih =>
    intro m m' a prev h hagree
    cases rest with
    | nil =>
      obtain ⟨h1, h2, h3, h4, h5⟩ := h
      have ha := hagree a (le_refl a)
      exact ⟨by rw [ha, h1], by rw [ha, h2], by rw [ha, h3], by rw [ha, h4], h5⟩
    | cons s2 rest2 =>
      obtain ⟨h1, h2, h3, h4, h5, h6⟩ := h
      have ha := hagree a (le_refl a)
      refine ⟨by rw [ha, h1], by rw [ha, h2], by rw [ha, h3], by rw [ha, h4], h5, ?_⟩
      exact ih m m' (a + s) s h6 (fun j hj => hagree j (by omega))

theorem realizesOpen_frame : ∀ (L : List Nat) (m m' : Mem) (a prev : Nat),
    RealizesOpen m a prev L → (∀ j, a ≤ j → m' j = m j) → RealizesOpen m' a prev L := by
  intro L
  induction L with
  | nil => intro m m' a prev _ _; trivial
  | cons s rest ih =>
    intro m m' a prev h hagree
    obtain ⟨h1, h2, h3, h4, h5, h6⟩ := h
    have ha := hagree a (le_refl a)
    refine ⟨by rw [ha, h1], by rw [ha, h2], by rw [ha, h3], by rw [ha, h4], h5, ?_⟩
    exact ih m m' (a + s) s h6 (fun j hj => hagree j (by omega))

/-- Replacing the head header with one that has the same size, allocation and LAST
flag but a new prev_size re-realizes the list with the new prev value. -/
theorem realizes_head_prev_congr (L : List Nat) (m m' : Mem) (b prev prev' : Nat)
    (h : Realizes m b prev L)
    (hp : Chunk.prev_size (m' b) = prev')
    (hs : Chunk.size (m' b) = Chunk.size (m b))
    (hal : Chunk.is_allocated (m' b) = Chunk.is_allocated (m b))
    (hl : Chunk.is_last (m' b) = Chunk.is_last (m b))
    (hrest : ∀ j, b < j → m' j = m j) :
    Realizes m' b prev' L := by
  cases L with
  | nil => exact absurd h (by simp [Realizes])
  | cons s rest =>
    cases rest with
    | nil =>
      obtain ⟨h1, h2, h3, h4, h5⟩ := h
      exact ⟨hp, by rw [hs, h2], by rw [hal, h3], by rw [hl, h4], h5⟩
    | cons s2 rest2 =>
      obtain ⟨h1, h2, h3, h4, h5, h6⟩ := h
      have h5n : 2 ≤ s := by rw [Chunk.min_size_eq] at h5; exact h5
      refine ⟨hp, by rw [hs, h2], by rw [hal, h3], by rw [hl, h4], h5, ?_⟩
      exact realizes_frame _ m m' (b + s) s h6 (fun j hj => hrest j (by omega))

/-- Setting the LAST flag on the final header of an open chain closes it. -/
theorem realizesOpen_close : ∀ (L : List Nat) (m : Mem) (a prev : Nat),
    RealizesOpen m a prev L → L ≠ [] →
    Realizes (memSet m (a + L.dropLast.sum)
      (Chunk.set_is_last (m (a + L.dropLast.sum)) true)) a prev L := by
  intro L
  induction L with
  | nil => intro m a prev _ hne; exact absurd rfl hne
  | cons s rest ih =>
    intro m a prev h _
    obtain ⟨h1, h2, h3, h4, h5, h6⟩ := h
    have h5n : 2 ≤ s := by rw [Chunk.min_size_eq] at h5; exact h5
    cases rest with
    | nil =>
      have hd : (([s] : List Nat).dropLast.sum) = 0 := by simp
      rw [hd]
      have hself : memSet m (a + 0) (Chunk.set_is_last (m (a + 0)) true) a =
          Chunk.set_is_last (m a) true := by
        have : a + 0 = a := by omega
        rw [this, memSet_self]
      refine ⟨?_, ?_, ?_, ?_, h5⟩
      · rw [hself, Chunk.prev_size_set_is_last, h1]
      · rw [hself, Chunk.size_set_is_last, h2]
      · rw [hself, Chunk.is_allocated_set_is_last, h3]
      · rw [hself, Chunk.is_last_set_is_last]
    | cons s2 rest2 =>
      have hd : ((s :: s2 :: rest2).dropLast.sum) = s + (s2 :: rest2).dropLast.sum := by
        simp [List.dropLast]
      rw [hd]
      have hsum : a + (s + (s2 :: rest2).dropLast.sum) =
          (a + s) + (s2 :: rest2).dropLast.sum := by omega
      have hne2 : a ≠ a + (s + (s2 :: rest2).dropLast.sum) := by omega
      have hread : memSet m (a + (s + (s2 :: rest2).dropLast.sum))
          (Chunk.set_is_last (m (a + (s + (s2 :: rest2).dropLast.sum))) true) a = m a :=
        memSet_ne _ _ _ _ hne2
      refine ⟨by rw [hread, h1], by rw [hread, h2], by rw [hread, h3],
        by rw [hread, h4], h5, ?_⟩
      have := ih m (a + s) s h6 (by simp)
      rw [hsum]
      exact this

theorem init_sizes_sum : ∀ (fuel r : Nat), Chunk.min_size ≤ r → r ≤ fuel →
    (Heap.init_sizes fuel r).sum ≤ r ∧
    r - (Heap.init_sizes fuel r).sum < Chunk.min_size := by
  intro fuel
  induction fuel with
  | zero => intro r h1 h2; rw [Chunk.min_size_eq] at h1; omega
  | succ fuel ih =>
    intro r h1 h2
    rw [Chunk.min_size_eq] at h1
    simp only [Heap.init_sizes]
    have hmx : Chunk.max_size = 32767 := rfl
    by_cases hb : r - min r Chunk.max_size < Chunk.min_size
    · rw [if_pos hb]
      rw [Chunk.min_size_eq] at hb ⊢
      rw [hmx] at hb ⊢
      simp only [List.sum_cons, List.sum_nil]
      omega
    · rw [if_neg hb]
      rw [Chunk.min_size_eq] at hb
      have hmx : Chunk.max_size = 32767 := rfl
      have := ih (r - min r Chunk.max_size)
        (by rw [Chunk.min_size_eq]; omega) (by omega)
      simp only [List.sum_cons]
      omega

theorem init_sizes_ne_nil (fuel r : Nat) (h : 1 ≤ fuel) :
    Heap.init_sizes fuel r ≠ [] := by
  cases fuel with
  | zero => omega
  | succ fuel =>
    simp only [Heap.init_sizes]
    by_cases hb : r - min r Chunk.max_size < Chunk.min_size
    · rw [if_pos hb]; simp
    · rw [if_neg hb]; simp

theorem dropLast_sum_cons (s : Nat) (t : List Nat) (h : t ≠ []) :
    ((s :: t).dropLast).sum = s + (t.dropLast).sum := by
  cases t with
  | nil => exact absurd rfl h
  | cons x xs => simp [List.dropLast]

/-- The init loop writes a well-linked open chain of the greedy sizes and reports
the count and the address of the final chunk; memory below `a` is untouched. -/
theorem Heap.init_loop_spec : ∀ (fuel : Nat) (m : Mem) (a prev r : Nat),
    Chunk.min_size ≤ r → r ≤ fuel →
    (prev = 0 ∨ (Chunk.min_size ≤ prev ∧ prev ≤ Chunk.max_size)) →
    ∃ m', Heap.init_loop fuel m a prev r =
        Except.ok (m', (Heap.init_sizes fuel r).length,
          a + ((Heap.init_sizes fuel r).dropLast).sum) ∧
      RealizesOpen m' a prev (Heap.init_sizes fuel r) ∧
      (∀ j, j < a → m' j = m j) := by
  intro fuel
  induction fuel with
  | zero => intro m a prev r h1 h2 _; rw [Chunk.min_size_eq] at h1; omega
  | succ fuel ih =>
    intro m a prev r h1 h2 hprev
    have hmx : Chunk.max_size = 32767 := rfl
    rw [Chunk.min_size_eq] at h1
    obtain ⟨w0, hw0, h0_prev, h0_last, h0_size, h0_alloc, h0_field⟩ :=
      Chunk.set_prev_size_spec (m a) prev hprev
    obtain ⟨w1, hw1, h1_size, h1_alloc, h1_prev, h1_last⟩ :=
      Chunk.set_size_spec w0 (min r Chunk.max_size)
        (by rw [Chunk.min_size_eq, hmx]; omega) (by omega)
    have hw3_prev : Chunk.prev_size (Chunk.set_is_last
        (Chunk.set_is_allocated w1 false) false) = prev := by
      rw [Chunk.prev_size_set_is_last, Chunk.prev_size_set_is_allocated, h1_prev, h0_prev]
    have hw3_size : Chunk.size (Chunk.set_is_last
        (Chunk.set_is_allocated w1 false) false) = min r Chunk.max_size := by
      rw [Chunk.size_set_is_last, Chunk.size_set_is_allocated, h1_size]
    have hw3_alloc : Chunk.is_allocated (Chunk.set_is_last
        (Chunk.set_is_allocated w1 false) false) = false := by
      rw [Chunk.is_allocated_set_is_last, Chunk.is_allocated_set_is_allocated]
    have hw3_last : Chunk.is_last (Chunk.set_is_last
        (Chunk.set_is_allocated w1 false) false) = false := by
      rw [Chunk.is_last_set_is_last]
    by_cases hb : r - min r Chunk.max_size < Chunk.min_size
    · refine ⟨memSet m a (Chunk.set_is_last (Chunk.set_is_allocated w1 false) false),
        ?_, ?_, ?_⟩
      · simp only [Heap.init_loop]
        simp only [hw0, hw1, if_pos hb]
        simp only [Heap.init_sizes]
        rw [if_pos hb]
        simp
      · simp only [Heap.init_sizes]
        rw [if_pos hb]
        exact ⟨by rw [memSet_self, hw3_prev], by rw [memSet_self, hw3_size],
          by rw [memSet_self, hw3_alloc], by rw [memSet_self, hw3_last],
          by rw [Chunk.min_size_eq, hmx]; omega, trivial⟩
      · intro j hj
        exact memSet_ne _ _ _ _ (by omega)
    · have hminsz : 2 ≤ min r Chunk.max_size := by rw [hmx]; omega
      rw [Chunk.min_size_eq] at hb
      obtain ⟨m', heq, hro, hfr⟩ :=
        ih (memSet m a (Chunk.set_is_last (Chunk.set_is_allocated w1 false) false))
          (a + min r Chunk.max_size) (min r Chunk.max_size) (r - min r Chunk.max_size)
          (by rw [Chunk.min_size_eq]; omega) (by omega)
          (Or.inr ⟨by rw [Chunk.min_size_eq]; omega, by omega⟩)
      have htne : Heap.init_sizes fuel (r - min r Chunk.max_size) ≠ [] :=
        init_sizes_ne_nil fuel _ (by omega)
      refine ⟨m', ?_, ?_, ?_⟩
      · simp only [Heap.init_loop]
        simp only [hw0, hw1]
        rw [if_neg (by rw [Chunk.min_size_eq]; omega), heq]
        simp only [Heap.init_sizes]
        rw [if_neg (by rw [Chunk.min_size_eq]; omega)]
        rw [dropLast_sum_cons _ _ htne]
        simp only [List.length_cons]
        have : a + min r Chunk.max_size +
            ((Heap.init_sizes fuel (r - min r Chunk.max_size)).dropLast).sum =
            a + (min r Chunk.max_size +
              ((Heap.init_sizes fuel (r - min r Chunk.max_size)).dropLast).sum) := by
          omega
        rw [this]
      · simp only [Heap.init_sizes]
        rw [if_neg (by rw [Chunk.min_size_eq]; omega)]
        have hreada : m' a = Chunk.set_is_last (Chunk.set_is_allocated w1 false) false := by
          rw [hfr a (by omega), memSet_self]
        exact ⟨by rw [hreada, hw3_prev], by rw [hreada, hw3_size],
          by rw [hreada, hw3_alloc], by rw [hreada, hw3_last],
          by rw [Chunk.min_size_eq, hmx]; omega, hro⟩
      · intro j hj
        rw [hfr j (by omega), memSet_ne _ _ _ _ (by omega)]

/-- Heap::new produces exactly the greedy chunk list, well-linked, all free,
with the LAST flag on the final chunk. -/
theorem Heap.new_spec (m0 : Mem) (len : Nat)
    (h : Chunk.min_size ≤ len / Chunk.alignment) :
    ∃ st, Heap.new m0 len = Except.ok st ∧
      Realizes st.mem 0 0
        (Heap.init_sizes (len / Chunk.alignment) (len / Chunk.alignment)) ∧
      st.chunk_count =
        (Heap.init_sizes (len / Chunk.alignment) (len / Chunk.alignment)).length := by
  obtain ⟨m', heq, hro, hfr⟩ :=
    Heap.init_loop_spec (len / Chunk.alignment) m0 0 0 (len / Chunk.alignment)
      h (le_refl _) (Or.inl rfl)
  have hne : Heap.init_sizes (len / Chunk.alignment) (len / Chunk.alignment) ≠ [] :=
    init_sizes_ne_nil _ _ (by rw [Chunk.min_size_eq] at h; omega)
  refine ⟨⟨memSet m'
      (0 + ((Heap.init_sizes (len / Chunk.alignment) (len / Chunk.alignment)).dropLast).sum)
      (Chunk.set_is_last (m' (0 + ((Heap.init_sizes (len / Chunk.alignment)
        (len / Chunk.alignment)).dropLast).sum)) true),
    (Heap.init_sizes (len / Chunk.alignment) (len / Chunk.alignment)).length⟩, ?_, ?_, rfl⟩
  · simp only [Heap.new]
    rw [if_neg (by omega), heq]
  · exact realizesOpen_close _ m' 0 0 hro hne

/-- One step of the address walk. -/
theorem chainAddrs_succ (m : Mem) (fuel a : Nat) :
    chainAddrs m (fuel + 1) a =
      a :: (if Chunk.is_last (m a) then []
            else chainAddrs m fuel (a + Chunk.size (m a))) := rfl

/-- One step of the size walk. -/
theorem chainSizes_succ (m : Mem) (fuel a : Nat) :
    chainSizes m (fuel + 1) a =
      Chunk.size (m a) ::
        (if Chunk.is_last (m a) then []
         else chainSizes m fuel (a + Chunk.size (m a))) := rfl

/-- Inversion for a realized chain with a nonempty tail. -/
theorem realizes_cons_inv (m : Mem) (a prev s : Nat) (t : List Nat) (hne : t ≠ [])
    (h : Realizes m a prev (s :: t)) :
    Chunk.prev_size (m a) = prev ∧ Chunk.size (m a) = s ∧
    Chunk.is_allocated (m a) = false ∧ Chunk.is_last (m a) = false ∧
    Chunk.min_size ≤ s ∧ Realizes m (a + s) s t := by
  cases t with
  | nil => exact absurd rfl hne
  | cons x xs => exact h

/-- Walking `next()` over a realized chain visits exactly its chunk addresses. -/
theorem realizes_chainAddrs : ∀ (L : List Nat) (m : Mem) (a prev : Nat),
    Realizes m a prev L → chainAddrs m L.length a = addrList a L := by
  intro L
  induction L with
  | nil => intro m a prev h; exact absurd h (by simp [Realizes])
  | cons s rest ih =>
    intro m a prev h
    cases rest with
    | nil =>
      obtain ⟨h1, h2, h3, h4, h5⟩ := h
      show chainAddrs m (0 + 1) a = addrList a [s]
      rw [chainAddrs_succ, h4]
      simp [addrList]
    | cons s2 rest2 =>
      obtain ⟨h1, h2, h3, h4, h5, h6⟩ := h
      show chainAddrs m ((s2 :: rest2).length + 1) a = addrList a (s :: s2 :: rest2)
      rw [chainAddrs_succ, h4, h2]
      rw [if_neg (by simp)]
      rw [ih m (a + s) s h6]
      rfl

/-- Walking `next()` over a realized chain reads back exactly its size list. -/
theorem realizes_chainSizes : ∀ (L : List Nat) (m : Mem) (a prev : Nat),
    Realizes m a prev L → chainSizes m L.length a = L := by
  intro L
  induction L with
  | nil => intro m a prev h; exact absurd h (by simp [Realizes])
  | cons s rest ih =>
    intro m a prev h
    cases rest with
    | nil =>
      obtain ⟨h1, h2, h3, h4, h5⟩ := h
      show chainSizes m (0 + 1) a = [s]
      rw [chainSizes_succ, h4, h2]
      simp
    | cons s2 rest2 =>
      obtain ⟨h1, h2, h3, h4, h5, h6⟩ := h
      show chainSizes m ((s2 :: rest2).length + 1) a = s :: s2 :: rest2
      rw [chainSizes_succ, h4, h2]
      rw [if_neg (by simp)]
      rw [ih m (a + s) s h6]

/-- The head of a nonempty realized chain stores the given prev_size. -/
theorem realizes_head_prev (m : Mem) (a prev : Nat) : ∀ (L : List Nat),
    Realizes m a prev L → Chunk.prev_size (m a) = prev := by
  intro L h
  cases L with
  | nil => exact absurd h (by simp [Realizes])
  | cons s rest =>
    cases rest with
    | nil => exact h.1
    | cons s2 rest2 => exact h.1

/-- Consecutive chunks of a realized chain satisfy the boundary-tag linkage. -/
theorem realizes_chain_linked : ∀ (L : List Nat) (m : Mem) (a prev : Nat),
    Realizes m a prev L →
    List.Chain' (fun x y => Chunk.prev_size (m y) = Chunk.size (m x))
      (chainAddrs m L.length a) := by
  intro L
  induction L with
  | nil => intro m a prev h; exact absurd h (by simp [Realizes])
  | cons s rest ih =>
    intro m a prev h
    cases rest with
    | nil =>
      obtain ⟨h1, h2, h3, h4, h5⟩ := h
      show List.Chain' _ (chainAddrs m (0 + 1) a)
      rw [chainAddrs_succ, h4]
      simp
    | cons s2 rest2 =>
      obtain ⟨h1, h2, h3, h4, h5, h6⟩ := h
      have htail := ih m (a + s) s h6
      have hphead : Chunk.prev_size (m (a + s)) = s :=
        realizes_head_prev m (a + s) s _ h6
      show List.Chain' _ (chainAddrs m ((s2 :: rest2).length + 1) a)
      rw [chainAddrs_succ, h4, h2]
      rw [if_neg (by simp)]
      rw [List.chain'_cons']
      refine ⟨?_, htail⟩
      intro y hy
      have hhead : (chainAddrs m (s2 :: rest2).length (a + s)).head? = some (a + s) := by
        show (chainAddrs m (rest2.length + 1) (a + s)).head? = some (a + s)
        rw [chainAddrs_succ]
        rfl
      rw [hhead] at hy
      simp at hy
      subst hy
      rw [hphead, h2]

/-- Membership in the address list of a chain yields a positional decomposition. -/
theorem mem_addrList : ∀ (L : List Nat) (a b : Nat), b ∈ addrList a L →
    ∃ L1 L2, L = L1 ++ L2 ∧ L2 ≠ [] ∧ b = a + L1.sum := by
  intro L
  induction L with
  | nil => intro a b h; simp [addrList] at h
  | cons s rest ih =>
    intro a b h
    simp only [addrList, List.mem_cons] at h
    cases h with
    | inl h => exact ⟨[], s :: rest, rfl, by simp, by simp [h]⟩
    | inr h =>
      obtain ⟨L1, L2, hL, hne, hb⟩ := ih (a + s) b h
      refine ⟨s :: L1, L2, by rw [List.cons_append, hL], hne, ?_⟩
      simp only [List.sum_cons]
      omega

/-- Reading the header fields of the chunk at position `L1.sum` of a realized chain. -/
theorem realizes_at : ∀ (L1 : List Nat) (S : Nat) (L2 : List Nat) (m : Mem)
    (a prev : Nat), Realizes m a prev (L1 ++ S :: L2) →
    Chunk.size (m (a + L1.sum)) = S ∧
    Chunk.is_allocated (m (a + L1.sum)) = false ∧
    Chunk.min_size ≤ S ∧
    (L2 = [] → Chunk.is_last (m (a + L1.sum)) = true) ∧
    (L2 ≠ [] → Chunk.is_last (m (a + L1.sum)) = false) := by
  intro L1
  induction L1 with
  | nil =>
    intro S L2 m a prev h
    simp only [List.nil_append] at h
    simp only [List.sum_nil, Nat.add_zero]
    cases L2 with
    | nil =>
      obtain ⟨h1, h2, h3, h4, h5⟩ := h
      exact ⟨h2, h3, h5, fun _ => h4, fun hne => absurd rfl hne⟩
    | cons s2 rest2 =>
      obtain ⟨h1, h2, h3, h4, h5, h6⟩ := h
      exact ⟨h2, h3, h5, fun he => absurd he (by simp), fun _ => h4⟩
  | cons s1 L1' ih =>
    intro S L2 m a prev h
    rw [List.cons_append] at h
    obtain ⟨h1, h2, h3, h4, h5, h6⟩ :=
      realizes_cons_inv m a prev s1 (L1' ++ S :: L2) (by simp) h
    have := ih S L2 m (a + s1) s1 h6
    simp only [List.sum_cons]
    have haddr : a + (s1 + L1'.sum) = a + s1 + L1'.sum := by omega
    rw [haddr]
    exact this

/-- Introduction for a realized chain with a nonempty tail. -/
theorem realizes_cons_intro (m : Mem) (a prev s : Nat) (t : List Nat) (hne : t ≠ [])
    (h1 : Chunk.prev_size (m a) = prev) (h2 : Chunk.size (m a) = s)
    (h3 : Chunk.is_allocated (m a) = false) (h4 : Chunk.is_last (m a) = false)
    (h5 : Chunk.min_size ≤ s) (h6 : Realizes m (a + s) s t) :
    Realizes m a prev (s :: t) := by
  cases t with
  | nil => exact absurd rfl hne
  | cons x xs => exact ⟨h1, h2, h3, h4, h5, h6⟩


/-- Splitting the chunk at position `L1.sum` of a realized chain re-realizes the
list with that entry divided in two, given the header facts split leaves behind. -/
theorem realizes_split_insert : ∀ (L1 : List Nat) (S : Nat) (L2 : List Nat)
    (m m' : Mem) (a b prev s : Nat),
    Realizes m a prev (L1 ++ S :: L2) →
    b = a + L1.sum →
    Chunk.min_size ≤ s → Chunk.min_size ≤ S - s → s ≤ S →
    (∀ j, j ≠ b → j ≠ b + s → j ≠ b + S → m' j = m j) →
    Chunk.prev_size (m' b) = Chunk.prev_size (m b) →
    Chunk.size (m' b) = s →
    Chunk.is_allocated (m' b) = Chunk.is_allocated (m b) →
    Chunk.is_last (m' b) = false →
    Chunk.prev_size (m' (b + s)) = s →
    Chunk.size (m' (b + s)) = S - s →
    Chunk.is_allocated (m' (b + s)) = false →
    Chunk.is_last (m' (b + s)) = Chunk.is_last (m b) →
    (Chunk.is_last (m b) = true → m' (b + S) = m (b + S)) →
    (Chunk.is_last (m b) = false →
      Chunk.prev_size (m' (b + S)) = S - s ∧
      Chunk.size (m' (b + S)) = Chunk.size (m (b + S)) ∧
      Chunk.is_allocated (m' (b + S)) = Chunk.is_allocated (m (b + S)) ∧
      Chunk.is_last (m' (b + S)) = Chunk.is_last (m (b + S))) →
    Realizes m' a prev (L1 ++ s :: (S - s) :: L2) := by
  intro L1
  induction L1 with
  | nil =>
    intro S L2 m m' a b prev s h hb hs1 hs2 hle hframe hpb hsb hab hlb
      hpc hsc hac hlc htrue hfalse
    have hb0 : b = a := by rw [hb]; simp
    subst hb0
    have hs1n : 2 ≤ s := by rw [Chunk.min_size_eq] at hs1; exact hs1
    have hs2n : 2 ≤ S - s := by rw [Chunk.min_size_eq] at hs2; exact hs2
    simp only [List.nil_append] at h ⊢
    cases L2 with
    | nil =>
      obtain ⟨h1, h2, h3, h4, h5⟩ := h
      exact ⟨by rw [hpb, h1], hsb, by rw [hab, h3], hlb, hs1,
        hpc, hsc, hac, by rw [hlc, h4], hs2⟩
    | cons s2 r2 =>
      obtain ⟨h1, h2, h3, h4, h5, h6⟩ := h
      refine ⟨by rw [hpb, h1], hsb, by rw [hab, h3], hlb, hs1, ?_⟩
      refine realizes_cons_intro m' (b + s) s (S - s) (s2 :: r2) (by simp)
        hpc hsc hac (by rw [hlc, h4]) hs2 ?_
      have haddr : b + s + (S - s) = b + S := by omega
      rw [haddr]
      obtain ⟨hf1, hf2, hf3, hf4⟩ := hfalse h4
      exact realizes_head_prev_congr (s2 :: r2) m m' (b + S) S (S - s) h6
        hf1 hf2 hf3 hf4
        (fun j hj => hframe j (by omega) (by omega) (by omega))
  | cons s1 L1' ih =>
    intro S L2 m m' a b prev s h hb hs1 hs2 hle hframe hpb hsb hab hlb
      hpc hsc hac hlc htrue hfalse
    rw [List.cons_append] at h
    obtain ⟨hh1, hh2, hh3, hh4, hh5, hh6⟩ :=
      realizes_cons_inv m a prev s1 (L1' ++ S :: L2) (by simp) h
    have hh5n : 2 ≤ s1 := by rw [Chunk.min_size_eq] at hh5; exact hh5
    have hb' : b = (a + s1) + L1'.sum := by
      rw [hb]
      simp only [List.sum_cons]
      omega
    have hma : m' a = m a :=
      hframe a (by omega) (by omega) (by omega)
    rw [List.cons_append]
    refine realizes_cons_intro m' a prev s1 (L1' ++ s :: (S - s) :: L2) (by simp)
      (by rw [hma]; exact hh1) (by rw [hma]; exact hh2) (by rw [hma]; exact hh3)
      (by rw [hma]; exact hh4) hh5 ?_
    exact ih S L2 m m' (a + s1) b s1 s hh6 hb' hs1 hs2 hle hframe hpb hsb hab hlb
      hpc hsc hac hlc htrue hfalse

/-- Merging the chunk at position `L1.sum` with its successor re-realizes the
chain with the two entries combined, given absorb's header facts. -/
theorem realizes_absorb_merge : ∀ (L1 : List Nat) (S0 S1 : Nat) (L2 : List Nat)
    (m m' : Mem) (a b prev : Nat),
    Realizes m a prev (L1 ++ S0 :: S1 :: L2) →
    b = a + L1.sum →
    (∀ j, j ≠ b → j ≠ b + (S0 + S1) → m' j = m j) →
    Chunk.prev_size (m' b) = Chunk.prev_size (m b) →
    Chunk.size (m' b) = S0 + S1 →
    Chunk.is_allocated (m' b) = Chunk.is_allocated (m b) →
    Chunk.is_last (m' b) = Chunk.is_last (m (b + S0)) →
    (Chunk.is_last (m (b + S0)) = false →
      Chunk.prev_size (m' (b + (S0 + S1))) = S0 + S1 ∧
      Chunk.size (m' (b + (S0 + S1))) = Chunk.size (m (b + (S0 + S1))) ∧
      Chunk.is_allocated (m' (b + (S0 + S1))) =
        Chunk.is_allocated (m (b + (S0 + S1))) ∧
      Chunk.is_last (m' (b + (S0 + S1))) = Chunk.is_last (m (b + (S0 + S1)))) →
    Realizes m' a prev (L1 ++ (S0 + S1) :: L2) := by
  intro L1
  induction L1 with
  | nil =>
    intro S0 S1 L2 m m' a b prev h hb hframe hpb hsb hab hlb hfalse
    have hb0 : b = a := by rw [hb]; simp
    subst hb0
    simp only [List.nil_append] at h ⊢
    obtain ⟨h1, h2, h3, h4, h5, h6⟩ := h
    have h5n : 2 ≤ S0 := by rw [Chunk.min_size_eq] at h5; exact h5
    cases L2 with
    | nil =>
      obtain ⟨h61, h62, h63, h64, h65⟩ := h6
      exact ⟨by rw [hpb, h1], hsb, by rw [hab, h3], by rw [hlb, h64],
        by rw [Chunk.min_size_eq] at h5 ⊢; omega⟩
    | cons t ts =>
      obtain ⟨h61, h62, h63, h64, h65, h66⟩ :=
        realizes_cons_inv m (b + S0) S0 S1 (t :: ts) (by simp) h6
      have h65n : 2 ≤ S1 := by rw [Chunk.min_size_eq] at h65; exact h65
      refine realizes_cons_intro m' b prev (S0 + S1) (t :: ts) (by simp)
        (by rw [hpb, h1]) hsb (by rw [hab, h3]) (by rw [hlb, h64])
        (by rw [Chunk.min_size_eq] at h5 ⊢; omega) ?_
      obtain ⟨hf1, hf2, hf3, hf4⟩ := hfalse h64
      have haddr : b + S0 + S1 = b + (S0 + S1) := by omega
      rw [haddr] at h66
      exact realizes_head_prev_congr (t :: ts) m m' (b + (S0 + S1)) S1 (S0 + S1) h66
        hf1 hf2 hf3 hf4
        (fun j hj => hframe j (by omega) (by omega))
  | cons s1 L1' ih =>
    intro S0 S1 L2 m m' a b prev h hb hframe hpb hsb hab hlb hfalse
    rw [List.cons_append] at h
    obtain ⟨hh1, hh2, hh3, hh4, hh5, hh6⟩ :=
      realizes_cons_inv m a prev s1 (L1' ++ S0 :: S1 :: L2) (by simp) h
    have hh5n : 2 ≤ s1 := by rw [Chunk.min_size_eq] at hh5; exact hh5
    have hb' : b = (a + s1) + L1'.sum := by
      rw [hb]
      simp only [List.sum_cons]
      omega
    have hma : m' a = m a := hframe a (by omega) (by omega)
    rw [List.cons_append]
    refine realizes_cons_intro m' a prev s1 (L1' ++ (S0 + S1) :: L2) (by simp)
      (by rw [hma]; exact hh1) (by rw [hma]; exact hh2) (by rw [hma]; exact hh3)
      (by rw [hma]; exact hh4) hh5 ?_
    exact ih S0 S1 L2 m m' (a + s1) b s1 hh6 hb' hframe hpb hsb hab hlb hfalse

/-- Every reachable state realizes a well-linked free chunk list whose length is
chunk_count and whose total size is the capacity fixed at initialization. -/
theorem reached_realizes (m0 : Mem) (len : Nat) (st : Heap)
    (h : Reached m0 len st) :
    Chunk.min_size ≤ len / Chunk.alignment ∧
    ∃ L, Realizes st.mem 0 0 L ∧ st.chunk_count = L.length ∧
      L.sum = Heap.init_capacity (len / Chunk.alignment) := by
  induction h with
  | init st hnew =>
    by_cases hlen : len / Chunk.alignment < Chunk.min_size
    · simp only [Heap.new] at hnew
      rw [if_pos hlen] at hnew
      exact absurd hnew (by simp)
    · obtain ⟨st2, heq, hre, hcnt⟩ := Heap.new_spec m0 len (by omega)
      rw [heq] at hnew
      simp only [Except.ok.injEq] at hnew
      subst hnew
      exact ⟨by omega, _, hre, hcnt, rfl⟩
  | split_step st st' a s r hst hmem heq ih =>
    obtain ⟨hlen, L, hre, hcnt, hsum⟩ := ih
    have hfc : Heap.first_chunk = 0 := rfl
    rw [hfc] at hmem
    rw [hcnt, realizes_chainAddrs L st.mem 0 0 hre] at hmem
    obtain ⟨L1, L2, hL, hne, hb⟩ := mem_addrList L 0 a hmem
    subst hL
    cases L2 with
    | nil => exact absurd rfl hne
    | cons S L2' =>
      have hb' : a = 0 + L1.sum := hb
      subst hb'
      obtain ⟨hsizeA, hallocA, hminS, hlastT, hlastF⟩ :=
        realizes_at L1 S L2' st.mem 0 0 hre
      by_cases hu : Chunk.size (st.mem (0 + L1.sum)) < s
      · rw [Heap.split_underflow st _ s hu] at heq
        exact absurd heq (by simp)
      by_cases hg : Chunk.size (st.mem (0 + L1.sum)) - s < Chunk.min_size ∨
          s < Chunk.min_size
      · rw [Heap.split_none st _ s (by omega) hg.symm] at heq
        simp only [Except.ok.injEq, Prod.mk.injEq] at heq
        obtain ⟨h1, _⟩ := heq
        subst h1
        exact ⟨hlen, L1 ++ S :: L2', hre, hcnt, hsum⟩
      · push_neg at hg
        obtain ⟨hg1, hg2⟩ := hg
        obtain ⟨st2, heq2, hcnt2, hframe2, hpa, hsa, haa, hla,
            hpc, hsc, hac, hlc, ht, hf⟩ :=
          Heap.split_success st (0 + L1.sum) s hg2 hg1 (by omega)
        rw [heq2] at heq
        simp only [Except.ok.injEq, Prod.mk.injEq] at heq
        obtain ⟨h1, _⟩ := heq
        subst h1
        rw [hsizeA] at hframe2 hsc ht hf hg1 hu
        refine ⟨hlen, L1 ++ s :: (S - s) :: L2', ?_, ?_, ?_⟩
        · exact realizes_split_insert L1 S L2' st.mem st2.mem 0 (0 + L1.sum) 0 s
            hre rfl hg2 hg1 (by omega) hframe2 hpa hsa haa hla hpc hsc hac hlc ht hf
        · rw [hcnt2, hcnt]
          simp only [List.length_append, List.length_cons]
          omega
        · rw [← hsum]
          simp only [List.sum_append, List.sum_cons]
          omega
  | absorb_step st st' a hst hmem heq ih =>
    obtain ⟨hlen, L, hre, hcnt, hsum⟩ := ih
    have hfc : Heap.first_chunk = 0 := rfl
    rw [hfc] at hmem
    rw [hcnt, realizes_chainAddrs L st.mem 0 0 hre] at hmem
    obtain ⟨L1, L2, hL, hne, hb⟩ := mem_addrList L 0 a hmem
    subst hL
    cases L2 with
    | nil => exact absurd rfl hne
    | cons S L2' =>
      have hb' : a = 0 + L1.sum := hb
      subst hb'
      obtain ⟨hsizeA, hallocA, hminS, hlastT, hlastF⟩ :=
        realizes_at L1 S L2' st.mem 0 0 hre
      cases L2' with
      | nil =>
        rw [Heap.absorb_next_none st _ (hlastT rfl)] at heq
        simp only [Except.ok.injEq] at heq
        subst heq
        exact ⟨hlen, L1 ++ [S], hre, hcnt, hsum⟩
      | cons S1 L2'' =>
        have hlast : Chunk.is_last (st.mem (0 + L1.sum)) = false :=
          hlastF (by simp)
        have hre2 : Realizes st.mem 0 0 ((L1 ++ [S]) ++ S1 :: L2'') := by
          rw [List.append_assoc]
          simpa using hre
        obtain ⟨hsizeB, hallocB, hminS1, hlastTB, hlastFB⟩ :=
          realizes_at (L1 ++ [S]) S1 L2'' st.mem 0 0 hre2
        have haddrB : 0 + (L1 ++ [S]).sum = 0 + L1.sum + S := by
          simp
        rw [haddrB] at hsizeB hallocB hlastTB hlastFB
        have hsizeB' : Chunk.size (st.mem
            (0 + L1.sum + Chunk.size (st.mem (0 + L1.sum)))) = S1 := by
          rw [hsizeA]
          exact hsizeB
        by_cases hov : Chunk.max_size < Chunk.size (st.mem (0 + L1.sum)) +
            Chunk.size (st.mem (0 + L1.sum + Chunk.size (st.mem (0 + L1.sum))))
        · rw [Heap.absorb_next_overflow st _ hlast (by rw [hallocA]; simp) hov] at heq
          simp only [Except.ok.injEq] at heq
          subst heq
          exact ⟨hlen, L1 ++ S :: S1 :: L2'', hre, hcnt, hsum⟩
        · rw [hsizeA, hsizeB] at hov
          obtain ⟨st2, heq2, hcnt2, hframe2, hpa, hsa, haa, hla, htrue2, hfalse2⟩ :=
            Heap.absorb_merge_free st (0 + L1.sum) hlast
              (by rw [hsizeA]; exact hallocB)
              (by rw [hsizeA]; exact hminS)
              (by rw [hsizeA, hsizeB]; exact hminS1)
              (by rw [hsizeA, hsizeB]; omega)
          rw [heq2] at heq
          simp only [Except.ok.injEq] at heq
          subst heq
          rw [hsizeA] at hframe2 hsa hla hfalse2
          rw [hsizeB] at hframe2 hsa hfalse2
          refine ⟨hlen, L1 ++ (S + S1) :: L2'', ?_, ?_, ?_⟩
          · exact realizes_absorb_merge L1 S S1 L2'' st.mem st2.mem 0 (0 + L1.sum) 0
              hre rfl hframe2 hpa hsa haa hla hfalse2
          · rw [hcnt2, hcnt]
            simp only [List.length_append, List.length_cons]
            omega
          · rw [← hsum]
            simp only [List.sum_append, List.sum_cons]
            omega

/-! ## Claims -/

/-- C1: After any finite sequence of Heap::new, split, and absorb_next calls
(each invoked with its preconditions met), every chunk except the first satisfies
c.prev_size() == size() of the chunk immediately preceding it in address order. -/
theorem reached_prev_size_linkage (m0 : Mem) (len : Nat) (st : Heap)
    (h : Reached m0 len st) :
    List.Chain' (fun x y => Chunk.prev_size (st.mem y) = Chunk.size (st.mem x))
      (chainAddrs st.mem st.chunk_count Heap.first_chunk) := by
  obtain ⟨hlen, L, hre, hcnt, _⟩ := reached_realizes m0 len st h
  have hfc : Heap.first_chunk = 0 := rfl
  rw [hfc, hcnt]
  exact realizes_chain_linked L st.mem 0 0 hre

/-- Witness for C1: a heap built from a 160-byte region by one split satisfies
the prev_size linkage along its chunk chain. -/
theorem reached_prev_size_linkage_witness :
    List.Chain' (fun x y => Chunk.prev_size (demoHeap1.mem y) = Chunk.size (demoHeap1.mem x))
      (chainAddrs demoHeap1.mem demoHeap1.chunk_count Heap.first_chunk) :=
  reached_prev_size_linkage memZero 160 demoHeap1
    (Reached.split_step demoHeap0 demoHeap1 0 2 (some 2)
      (Reached.init demoHeap0 rfl) (by decide) rfl)

/-- C2 (code bug): the payload relocation of absorb_next passes
`(c1.size() - hdr_csize()) * alignment()` as the ELEMENT count of
`ptr::copy::<usize>`, so it copies that many whole words — alignment() times the
claimed byte count — and writes far beyond the destination payload. Concretely,
with free c0 (size 2) at word 0 and allocated c1 (size 2) at word 2, the copy
overwrites word 4, which held the following chunk's header
(1081346 = prev_size 2, size 16, LAST), even though word 4 lies outside the
claimed destination range of (c1.size() - hdr_csize()) = 1 word. -/
theorem absorb_next_copy_overruns_destination :
    Heap.absorb_next demoHeap3 0 = Except.ok demoHeap4 ∧
    Chunk.size (demoHeap3.mem 2) - Chunk.hdr_csize = 1 ∧
    demoHeap3.mem 4 = 1081346 ∧
    demoHeap4.mem 4 = 0 ∧
    ¬(Heap.to_ptr 0 ≤ 4 ∧
      4 < Heap.to_ptr 0 + (Chunk.size (demoHeap3.mem 2) - Chunk.hdr_csize)) :=
  ⟨rfl, rfl, rfl, rfl, by decide⟩

/-- C3: when a free chunk c0 absorbs its allocated successor c1 (sizes within
MAX_CHUNK), the payload words of c1 reappear unchanged at to_ptr(c0): the copy
is a memmove from higher to lower addresses, so the relocated prefix is exact. -/
theorem absorb_next_preserves_relocated_payload (st : Heap) (a : Nat)
    (hnl : Chunk.is_last (st.mem a) = false)
    (h0free : Chunk.is_allocated (st.mem a) = false)
    (h1alloc : Chunk.is_allocated (st.mem (a + Chunk.size (st.mem a))) = true)
    (hS : Chunk.min_size ≤ Chunk.size (st.mem a))
    (hS1 : Chunk.min_size ≤ Chunk.size (st.mem (a + Chunk.size (st.mem a))))
    (hmax : Chunk.size (st.mem a) +
        Chunk.size (st.mem (a + Chunk.size (st.mem a))) ≤ Chunk.max_size) :
    ∃ st', Heap.absorb_next st a = Except.ok st' ∧
      ∀ k, k < Chunk.size (st.mem (a + Chunk.size (st.mem a))) - Chunk.hdr_csize →
        st'.mem (Heap.to_ptr a + k) =
          st.mem (Heap.to_ptr (a + Chunk.size (st.mem a)) + k) := by
  rw [Chunk.min_size_eq] at hS hS1
  obtain ⟨w, hw, hw_size, hw_alloc, hw_prev, hw_last⟩ :=
    Chunk.set_size_spec (st.mem a)
      (Chunk.size (st.mem a) + Chunk.size (st.mem (a + Chunk.size (st.mem a))))
      (by rw [Chunk.min_size_eq]; omega) hmax
  have ra1 : ∀ (m : Mem) v, memSet m a v (a + Chunk.size (st.mem a)) =
      m (a + Chunk.size (st.mem a)) := fun m v => memSet_ne m a v _ (by omega)
  have ra2 : ∀ (m : Mem) v, memSet m a v
      (a + (Chunk.size (st.mem a) + Chunk.size (st.mem (a + Chunk.size (st.mem a))))) =
      m (a + (Chunk.size (st.mem a) + Chunk.size (st.mem (a + Chunk.size (st.mem a))))) :=
    fun m v => memSet_ne m a v _ (by omega)
  have ra4 : ∀ (m : Mem) v, memSet m
      (a + (Chunk.size (st.mem a) + Chunk.size (st.mem (a + Chunk.size (st.mem a))))) v
      (a + Chunk.size (st.mem a)) = m (a + Chunk.size (st.mem a)) :=
    fun m v => memSet_ne m _ v _ (by omega)
  have hnb : ¬(Chunk.is_allocated (st.mem a) = true ∧
      Chunk.is_allocated (st.mem (a + Chunk.size (st.mem a))) = true) := by
    rw [h0free]
    simp
  have hhdr : ¬ Chunk.size (st.mem (a + Chunk.size (st.mem a))) < Chunk.hdr_csize := by
    rw [Chunk.hdr_csize_eq]
    omega
  cases hL1 : Chunk.is_last (st.mem (a + Chunk.size (st.mem a))) with
  | true =>
    refine ⟨⟨memCopy (memSet (memSet (memSet st.mem a w) a (Chunk.set_is_last w true)) a
        (Chunk.set_is_allocated (Chunk.set_is_last w true) true))
        (Heap.to_ptr (a + Chunk.size (st.mem a))) (Heap.to_ptr a)
        ((Chunk.size (st.mem (a + Chunk.size (st.mem a))) - Chunk.hdr_csize) *
          Chunk.alignment),
      st.chunk_count - 1⟩, ?_, ?_⟩
    · simp only [Heap.absorb_next, Chunk.next_addr, hnl, Bool.false_eq_true, if_false]
      rw [if_neg (by simpa using hnb), if_neg (by omega), hw]
      simp only [Heap.absorb_link, Heap.absorb_finish, Chunk.next_addr,
        memSet_self, ra1, ra2, ra4, hL1, h1alloc, h0free, hw_size, hw_alloc,
        Chunk.size_set_is_last, Chunk.size_set_is_allocated,
        Chunk.is_last_set_is_last, Chunk.is_last_set_is_allocated,
        Chunk.is_allocated_set_is_last, Chunk.is_allocated_set_is_allocated,
        Bool.false_or, if_true, Bool.false_eq_true, if_false]
      rw [if_neg hhdr]
    · intro k hk
      rw [Chunk.hdr_csize_eq] at hk
      simp only [Heap.to_ptr, Chunk.hdr_csize_eq, Chunk.alignment_eq]
      rw [memCopy_in _ _ _ _ _ (by omega) (by omega)]
      have hx : a + Chunk.size (st.mem a) + 1 + (a + 1 + k - (a + 1)) =
          a + Chunk.size (st.mem a) + 1 + k := by omega
      rw [hx]
      rw [memSet_ne _ _ _ _ (by omega), memSet_ne _ _ _ _ (by omega),
        memSet_ne _ _ _ _ (by omega)]
  | false =>
    obtain ⟨wC, hwC, hC_prev, hC_last, hC_size, hC_alloc, hC_field⟩ :=
      Chunk.set_prev_size_spec
        (st.mem (a + (Chunk.size (st.mem a) +
          Chunk.size (st.mem (a + Chunk.size (st.mem a))))))
        (Chunk.size (st.mem a) + Chunk.size (st.mem (a + Chunk.size (st.mem a))))
        (Or.inr ⟨by rw [Chunk.min_size_eq]; omega, hmax⟩)
    refine ⟨⟨memCopy (memSet (memSet (memSet (memSet st.mem a w) a
        (Chunk.set_is_last w false)) a
        (Chunk.set_is_allocated (Chunk.set_is_last w false) true))
        (a + (Chunk.size (st.mem a) + Chunk.size (st.mem (a + Chunk.size (st.mem a)))))
        wC)
        (Heap.to_ptr (a + Chunk.size (st.mem a))) (Heap.to_ptr a)
        ((Chunk.size (st.mem (a + Chunk.size (st.mem a))) - Chunk.hdr_csize) *
          Chunk.alignment),
      st.chunk_count - 1⟩, ?_, ?_⟩
    · simp only [Heap.absorb_next, Chunk.next_addr, hnl, Bool.false_eq_true, if_false]
      rw [if_neg (by simpa using hnb), if_neg (by omega), hw]
      simp only [Heap.absorb_link, Heap.absorb_finish, Chunk.next_addr,
        memSet_self, ra1, ra2, ra4, hL1, h1alloc, h0free, hw_size, hw_alloc,
        Chunk.size_set_is_last, Chunk.size_set_is_allocated,
        Chunk.is_last_set_is_last, Chunk.is_last_set_is_allocated,
        Chunk.is_allocated_set_is_last, Chunk.is_allocated_set_is_allocated,
        Bool.false_or, Bool.false_eq_true, if_false]
      rw [hwC]
      simp only [memSet_self, ra1, ra2, ra4, h1alloc, if_true]
      rw [if_neg hhdr]
    · intro k hk
      rw [Chunk.hdr_csize_eq] at hk
      simp only [Heap.to_ptr, Chunk.hdr_csize_eq, Chunk.alignment_eq]
      rw [memCopy_in _ _ _ _ _ (by omega) (by omega)]
      have hx : a + Chunk.size (st.mem a) + 1 + (a + 1 + k - (a + 1)) =
          a + Chunk.size (st.mem a) + 1 + k := by omega
      rw [hx]
      rw [memSet_ne _ _ _ _ (by omega), memSet_ne _ _ _ _ (by omega),
        memSet_ne _ _ _ _ (by omega), memSet_ne _ _ _ _ (by omega)]

/-- Witness for C3: absorbing the allocated size-2 successor at word 2 into the
free chunk at word 0 preserves the payload word. -/
theorem absorb_next_preserves_relocated_payload_witness :
    ∃ st', Heap.absorb_next demoHeap3 0 = Except.ok st' ∧
      ∀ k, k < Chunk.size (demoHeap3.mem (0 + Chunk.size (demoHeap3.mem 0))) -
          Chunk.hdr_csize →
        st'.mem (Heap.to_ptr 0 + k) =
          demoHeap3.mem (Heap.to_ptr (0 + Chunk.size (demoHeap3.mem 0)) + k) :=
  absorb_next_preserves_relocated_payload demoHeap3 0 rfl rfl rfl
    (by decide) (by decide) (by decide)

/-- Counterexample to C4: with a minimum-size chunk (size 2) and the in-range
request s = 3 > c0.size(), split does not return None — the unchecked usize
subtraction `c0.size() - size` panics (debug-build arithmetic overflow). -/
theorem split_oversized_request_panics :
    Chunk.min_size ≤ 3 ∧ Chunk.size (c4state.mem 0) = 2 ∧
    Heap.split c4state 0 3 = Except.error "attempt to subtract with overflow" :=
  ⟨by decide, rfl, rfl⟩

/-- C4 as amended: for requests not exceeding the chunk (so the subtraction
cannot underflow), split returns None and leaves the heap untouched whenever the
request or the remainder is below MIN_CHUNK. -/
theorem split_rejects_undersized_requests (st : Heap) (a s : Nat)
    (hle : s ≤ Chunk.size (st.mem a))
    (hsmall : s < Chunk.min_size ∨ Chunk.size (st.mem a) - s < Chunk.min_size) :
    Heap.split st a s = Except.ok (st, none) :=
  Heap.split_none st a s hle hsmall

/-- Witness for the amended C4: splitting the size-2 chunk with s = 1 returns
None and the identical state. -/
theorem split_rejects_undersized_requests_witness :
    Heap.split c4state 0 1 = Except.ok (c4state, none) :=
  split_rejects_undersized_requests c4state 0 1 (by decide) (Or.inl (by decide))

/-- Counterexample to C5: on a region of 32768 alignment units the greedy init
emits one chunk of 32767 units and discards the residual unit, so the sum of all
sizes is 32767; but the spec's N' — the largest integer at most N whose residual
cannot form another MIN_CHUNK — equals 32768. -/
theorem init_sum_differs_from_spec_capacity :
    262144 / Chunk.alignment = 32768 ∧
    Heap.new memZero 262144 = Except.ok c5state ∧
    (chainSizes c5state.mem c5state.chunk_count Heap.first_chunk).sum = 32767 ∧
    specInitCapacity 32768 = 32768 ∧
    (chainSizes c5state.mem c5state.chunk_count Heap.first_chunk).sum ≠
      specInitCapacity 32768 :=
  ⟨rfl, rfl, rfl, by decide, by decide⟩

/-- C5 as amended: at every observable moment after Heap::new (through any
sequence of split/absorb_next calls), the sum of size() over all chunks equals
the greedy capacity fixed at init, which is at most N and leaves a residual
smaller than MIN_CHUNK. -/
theorem reached_size_sum_is_greedy_capacity (m0 : Mem) (len : Nat) (st : Heap)
    (h : Reached m0 len st) :
    (chainSizes st.mem st.chunk_count Heap.first_chunk).sum =
      Heap.init_capacity (len / Chunk.alignment) ∧
    Heap.init_capacity (len / Chunk.alignment) ≤ len / Chunk.alignment ∧
    len / Chunk.alignment - Heap.init_capacity (len / Chunk.alignment) <
      Chunk.min_size := by
  obtain ⟨hlen, L, hre, hcnt, hsum⟩ := reached_realizes m0 len st h
  have hfc : Heap.first_chunk = 0 := rfl
  have hcap := init_sizes_sum (len / Chunk.alignment) (len / Chunk.alignment)
    hlen (le_refl _)
  refine ⟨?_, hcap.1, hcap.2⟩
  rw [hfc, hcnt, realizes_chainSizes L st.mem 0 0 hre, hsum]

/-- Witness for the amended C5: the 160-byte heap after one split has chunk
sizes summing to the init capacity 20. -/
theorem reached_size_sum_is_greedy_capacity_witness :
    (chainSizes demoHeap1.mem demoHeap1.chunk_count Heap.first_chunk).sum =
      Heap.init_capacity (160 / Chunk.alignment) ∧
    Heap.init_capacity (160 / Chunk.alignment) ≤ 160 / Chunk.alignment ∧
    160 / Chunk.alignment - Heap.init_capacity (160 / Chunk.alignment) <
      Chunk.min_size :=
  reached_size_sum_is_greedy_capacity memZero 160 demoHeap1
    (Reached.split_step demoHeap0 demoHeap1 0 2 (some 2)
      (Reached.init demoHeap0 rfl) (by decide) rfl)

/-- C6: for a region whose alignment-unit count N = L/A lies between MIN_CHUNK
and MAX_CHUNK, Heap::new produces a single free chunk of size N marked LAST. -/
theorem new_single_chunk_region (m0 : Mem) (len : Nat)
    (hmin : Chunk.min_size ≤ len / Chunk.alignment)
    (hmax : len / Chunk.alignment ≤ Chunk.max_size) :
    ∃ st, Heap.new m0 len = Except.ok st ∧ st.chunk_count = 1 ∧
      Chunk.size (st.mem Heap.first_chunk) = len / Chunk.alignment ∧
      Chunk.is_allocated (st.mem Heap.first_chunk) = false ∧
      Chunk.is_last (st.mem Heap.first_chunk) = true := by
  obtain ⟨st, heq, hre, hcnt⟩ := Heap.new_spec m0 len hmin
  have hone : Heap.init_sizes (len / Chunk.alignment) (len / Chunk.alignment) =
      [len / Chunk.alignment] := by
    rw [Chunk.min_size_eq] at hmin
    obtain ⟨k, hk⟩ : ∃ k, len / Chunk.alignment = k + 1 :=
      ⟨len / Chunk.alignment - 1, by omega⟩
    rw [hk] at hmax ⊢
    simp only [Heap.init_sizes]
    rw [min_eq_left hmax]
    rw [if_pos (by rw [Chunk.min_size_eq]; omega)]
  rw [hone] at hre hcnt
  obtain ⟨h1, h2, h3, h4, h5⟩ := hre
  have hfc : Heap.first_chunk = 0 := rfl
  exact ⟨st, heq, by rw [hcnt]; rfl, by rw [hfc]; exact h2,
    by rw [hfc]; exact h3, by rw [hfc]; exact h4⟩

/-- Witness for C6: a 32 KiB region (N = 4096) yields one free LAST chunk of
size 4096. -/
theorem new_single_chunk_region_witness :
    ∃ st, Heap.new memZero 32768 = Except.ok st ∧ st.chunk_count = 1 ∧
      Chunk.size (st.mem Heap.first_chunk) = 32768 / Chunk.alignment ∧
      Chunk.is_allocated (st.mem Heap.first_chunk) = false ∧
      Chunk.is_last (st.mem Heap.first_chunk) = true :=
  new_single_chunk_region memZero 32768 (by decide) (by decide)

/-- C7: a successful split(c0, s) followed by absorb_next(c0) restores c0's
original size and returns chunk_count to its pre-split value (the fresh chunk is
free, so the absorb precondition holds automatically). -/
theorem split_then_absorb_restores (st st' : Heap) (a s c1 : Nat)
    (hs : Heap.split st a s = Except.ok (st', some c1)) :
    ∃ st'', Heap.absorb_next st' a = Except.ok st'' ∧
      Chunk.size (st''.mem a) = Chunk.size (st.mem a) ∧
      st''.chunk_count = st.chunk_count := by
  by_cases hu : Chunk.size (st.mem a) < s
  · rw [Heap.split_underflow st a s hu] at hs
    exact absurd hs (by simp)
  by_cases hg : s < Chunk.min_size ∨ Chunk.size (st.mem a) - s < Chunk.min_size
  · rw [Heap.split_none st a s (by omega) hg] at hs
    simp at hs
  push_neg at hg
  obtain ⟨hg1, hg2⟩ := hg
  obtain ⟨st2, heq, hcnt, hframe, hprev_a, hsize_a, halloc_a, hlast_a,
      hprev_c1, hsize_c1, halloc_c1, hlast_c1, htrue, hfalse⟩ :=
    Heap.split_success st a s (by omega) (by omega) (by omega)
  rw [heq] at hs
  simp only [Except.ok.injEq, Prod.mk.injEq, Option.some.injEq] at hs
  obtain ⟨hst, hc1⟩ := hs
  subst hst
  obtain ⟨st'', habs, hcnt2, hframe2, hprev2, hsize2, halloc2, hlast2,
      h2true, h2false⟩ :=
    Heap.absorb_merge_free st2 a hlast_a
      (by rw [hsize_a]; exact halloc_c1)
      (by rw [hsize_a]; exact hg1)
      (by rw [hsize_a, hsize_c1]; omega)
      (by rw [hsize_a, hsize_c1]
          have := Chunk.size_le_max (st.mem a)
          omega)
  refine ⟨st'', habs, ?_, ?_⟩
  · rw [hsize2, hsize_a, hsize_c1]
    omega
  · rw [hcnt2, hcnt]
    omega

/-- Witness for C7: splitting the single chunk of the 160-byte heap at size 2
then absorbing restores size 20 and chunk_count 1. -/
theorem split_then_absorb_restores_witness :
    ∃ st'', Heap.absorb_next demoHeap1 0 = Except.ok st'' ∧
      Chunk.size (st''.mem 0) = Chunk.size (demoHeap0.mem 0) ∧
      st''.chunk_count = demoHeap0.chunk_count :=
  split_then_absorb_restores demoHeap0 demoHeap1 0 2 2 rfl

/-- C8: for adjacent chunks not both allocated whose sizes sum beyond MAX_CHUNK,
absorb_next returns with the state — every header and chunk_count — unchanged. -/
theorem absorb_next_sum_overflow_noop (st : Heap) (a : Nat)
    (hnl : Chunk.is_last (st.mem a) = false)
    (hna : ¬(Chunk.is_allocated (st.mem a) = true ∧
             Chunk.is_allocated (st.mem (a + Chunk.size (st.mem a))) = true))
    (hov : Chunk.max_size < Chunk.size (st.mem a) +
      Chunk.size (st.mem (a + Chunk.size (st.mem a)))) :
    Heap.absorb_next st a = Except.ok st :=
  Heap.absorb_next_overflow st a hnl hna hov

/-- Witness for C8: two free adjacent 32767-unit chunks; absorbing is a no-op. -/
theorem absorb_next_sum_overflow_noop_witness :
    Heap.absorb_next w8state 0 = Except.ok w8state :=
  absorb_next_sum_overflow_noop w8state 0 rfl (by decide) (by decide)

/-- C9: set_prev_size(n) succeeds — storing n in the low 15 bits and preserving
the LAST flag (indeed the whole size field) — exactly when n = 0 or
MIN_CHUNK ≤ n ≤ MAX_CHUNK, and panics for every other n. -/
theorem set_prev_size_domain (w n : Nat) :
    ((n = 0 ∨ (Chunk.min_size ≤ n ∧ n ≤ Chunk.max_size)) →
      ∃ w', Chunk.set_prev_size w n = Except.ok w' ∧
        Chunk.prev_size w' = n ∧ Chunk.is_last w' = Chunk.is_last w ∧
        Chunk.sizeField w' = Chunk.sizeField w) ∧
    (¬(n = 0 ∨ (Chunk.min_size ≤ n ∧ n ≤ Chunk.max_size)) →
      Chunk.set_prev_size w n =
        Except.error "prev_size must be in Chunk::min_size()...Chunk::max_size()") := by
  constructor
  · intro hd
    obtain ⟨w', h1, h2, h3, _, _, h6⟩ := Chunk.set_prev_size_spec w n hd
    exact ⟨w', h1, h2, h3, h6⟩
  · intro hnd
    refine Chunk.set_prev_size_err w n ?_
    rw [Chunk.min_size_eq, Chunk.max_size_eq] at hnd ⊢
    omega

/-- Witness for C9: writing 5 into a header with the size field set succeeds and
preserves the other field; writing 1 (below MIN_CHUNK) panics. -/
theorem set_prev_size_domain_witness :
    (∃ w', Chunk.set_prev_size 4294967296 5 = Except.ok w' ∧
      Chunk.prev_size w' = 5 ∧ Chunk.is_last w' = Chunk.is_last 4294967296 ∧
      Chunk.sizeField w' = Chunk.sizeField 4294967296) ∧
    Chunk.set_prev_size 4294967296 1 =
      Except.error "prev_size must be in Chunk::min_size()...Chunk::max_size()" :=
  ⟨(set_prev_size_domain 4294967296 5).1 (Or.inr (by decide)),
   (set_prev_size_domain 4294967296 1).2 (by decide)⟩

/-- C10: when both adjacent chunks are allocated, absorb_next panics. The check
precedes the overflow test, so the panic fires with no constraint on the sizes —
in particular even when c0.size() + c1.size() > MAX_CHUNK. -/
theorem absorb_next_both_allocated_always_panics (st : Heap) (a : Nat)
    (hnl : Chunk.is_last (st.mem a) = false)
    (h0 : Chunk.is_allocated (st.mem a) = true)
    (h1 : Chunk.is_allocated (st.mem (a + Chunk.size (st.mem a))) = true) :
    Heap.absorb_next st a = Except.error "Chunks must not be both allocated" :=
  Heap.absorb_next_both_allocated st a hnl h0 h1

/-- Witness for C10: two adjacent allocated 32767-unit chunks — the sizes sum
beyond MAX_CHUNK, yet absorb_next panics rather than silently returning. -/
theorem absorb_next_both_allocated_always_panics_witness :
    Chunk.max_size < Chunk.size (w10state.mem 0) +
      Chunk.size (w10state.mem (0 + Chunk.size (w10state.mem 0))) ∧
    Heap.absorb_next w10state 0 = Except.error "Chunks must not be both allocated" :=
  ⟨by decide, absorb_next_both_allocated_always_panics w10state 0 rfl rfl rfl⟩
